import Mathlib

/-!
Verification development for the EDA module (datsci/eda.py): column-property
detectors, the correlation clusterer (get_feature_clusters), and the two
table summarizers (summarize_training_data and summarize_big_training_data).

The pandas / numpy / csv library collaborators are modelled as follows.

* A pandas DataFrame is an ordered association list of named columns, each
  column a list of cells.  A cell is a rational number (Python int / float),
  a string, or the null marker (np.nan / None): the CellVal type below.
* Python float parsing (the builtin float(...) applied to a string) is an
  external collaborator; every definition and theorem is parametric in a
  function parse : String -> Option Rat standing for it.  Python str.strip
  is the explicit pyStrip below.
* df.corr(method) is a pandas call; its result is modelled abstractly as a
  CorrMatrix: the list of the frame's columns together with a total function
  to Option Rat, where none stands for a NaN entry (pandas comparisons with
  NaN are false, hence none is never >= thresh).  Every matrix produced by
  df.corr is symmetric, is none outside its column set, and each diagonal
  entry is 1 unless its whole row is NaN; hypotheses of the theorems below
  only ever assume properties from that list.
* Python dicts keyed by column name (defaultdicts of counters, sets, flags)
  are total functions from String with the default as initial value, updated
  with Function.update.
* Errors (KeyError from a missing dict key, ZeroDivisionError from the
  perc_null division when no row was read) are modelled with Except String.

Two deliberate simplifications, both noted at the definition they concern:
the bounded queue.Queue(len(nodes)) of get_feature_clusters is treated as
unbounded (faithful whenever the routine returns, and in particular for the
default cols=None), and Python set.remove inside get_neighbors is modelled
by Finset.erase (the two differ only on matrices whose diagonal entry is
below the threshold while the rest of the column is not, which df.corr
never produces).
-/

/-- A value stored in the streaming summarizer's per-column uniqueness set:
the code adds the parsed float when the numeric parse was attempted and
succeeded, and the (trimmed) raw string otherwise. -/
inductive Val where
  | num (q : ℚ)
  | str (s : String)
deriving DecidableEq

/-- A cell of an in-memory pandas DataFrame: numeric scalar, string, or the
null marker (np.nan / None). -/
inductive CellVal where
  | null
  | num (q : ℚ)
  | str (s : String)
deriving DecidableEq

/-- In-memory table: ordered association list of (column name, cells). -/
abbrev DataFrame := List (String × List CellVal)

/-- df.shape[0]: number of rows, read off the first column. -/
def nRows (df : DataFrame) : ℕ :=
  match df with
  | [] => 0
  | c :: _ => c.2.length

/-- pandas col.isnull(): true exactly on the null marker (NaN / None); a
blank string is not pandas-null. -/
def isPdNull (v : CellVal) : Bool :=
  match v with
  | CellVal.null => true
  | _ => false

/-- find_null_cols(df, frac): columns whose pandas-null count divided by
df.shape[0] is >= frac, in column order.  (Source lines 84-90.) -/
def find_null_cols (df : DataFrame) (frac : ℚ) : List String :=
  (df.filter (fun p =>
    decide (frac ≤ ((p.2.filter (fun v => isPdNull v)).length : ℚ) / (nRows df : ℚ)))).map
    (fun p => p.1)

/-- The distinct non-null values of a column, as computed by
col[~col.isnull()].value_counts().index. -/
def distinctNonNull (cells : List CellVal) : Finset CellVal :=
  (cells.filter (fun v => !(isPdNull v))).toFinset

/-- find_binary_cols(df): keeps a column when its distinct non-null values
number at most 2 and the intersection with {0,1} has that same size
(source lines 93-111; note there is no non-emptiness check, so a column
with no non-null value passes the test). -/
def find_binary_cols (df : DataFrame) : List String :=
  (df.filter (fun p =>
    let uniq := distinctNonNull p.2
    if 2 < uniq.card then false
    else decide ((uniq ∩ ({CellVal.num 0, CellVal.num 1} : Finset CellVal)).card = uniq.card))).map
    (fun p => p.1)

/-! ## Correlation clusterer (get_feature_clusters, source lines 185-233) -/

/-- Abstract model of df.corr(method): the frame's columns (the matrix index)
and the entries, with none for NaN. -/
structure CorrMatrix where
  cols : List String
  corr : String → String → Option ℚ

/-- get_neighbors(n): the index entries m with df_corr[n][m] >= thresh (a NaN
entry compares false), with n itself removed.  Python removes n with
set.remove only when the set is nonempty; on matrices produced by df.corr
that remove never fails, and Finset.erase agrees with it. -/
def getNeighbors (M : CorrMatrix) (thresh : ℚ) (n : String) : Finset String :=
  ((M.cols.filter (fun m =>
    match M.corr m n with
    | some v => decide (thresh ≤ v)
    | none => false)).toFinset).erase n

/-- One round of breadth-first expansion: add every neighbor of the set. -/
def clusterExpand (M : CorrMatrix) (thresh : ℚ) (S : Finset String) : Finset String :=
  S ∪ S.biUnion (getNeighbors M thresh)

/-- get_cluster(n): the queue-based BFS collects exactly the set of nodes
reachable from n through get_neighbors; it is embedded as iterated
expansion, with enough rounds to reach the fixed point. -/
def getCluster (M : CorrMatrix) (thresh : ℚ) (n : String) : Finset String :=
  (clusterExpand M thresh)^[M.cols.length + 1] {n}

/-- The edge relation underlying the BFS: b is adjacent to a when b is among
get_neighbors(a). -/
def corrAdj (M : CorrMatrix) (thresh : ℚ) (a b : String) : Prop :=
  b ∈ getNeighbors M thresh a

/-- The body of the main loop of get_feature_clusters: a node already present
in an earlier cluster is skipped, otherwise its BFS cluster is appended;
seeding a node absent from the matrix raises KeyError inside
get_neighbors (df_corr[n]). -/
def gfcStep (M : CorrMatrix) (thresh : ℚ) (clusters : List (Finset String)) (cn : String) :
    Except String (List (Finset String)) :=
  if clusters.any (fun cl => decide (cn ∈ cl)) then Except.ok clusters
  else if cn ∈ M.cols then Except.ok (clusters ++ [getCluster M thresh cn])
  else Except.error "KeyError"

/-- get_feature_clusters(df, cols, thresh): iterate over the nodes (the cols
argument if given, else all matrix columns) accumulating clusters.  The
bounded queue.Queue(len(nodes)) is modelled as unbounded: the bound is
never reached when cols is None. -/
def get_feature_clusters (M : CorrMatrix) (cols : Option (List String)) (thresh : ℚ) :
    Except String (List (Finset String)) :=
  (cols.getD M.cols).foldlM (gfcStep M thresh) []

/-! ## Streaming summarizer (summarize_big_training_data, source lines 336-449) -/

/-- A whitespace character in the sense of Python str.strip(). -/
def isWsChar (c : Char) : Bool :=
  c = ' ' ∨ c = '\t' ∨ c = '\n' ∨ c = '\r' ∨ c = '\x0b' ∨ c = '\x0c'

/-- Python str.strip(): drop leading and trailing whitespace.  (Modelled
explicitly — rather than with String.trim — so that it evaluates inside
the kernel on concrete inputs.) -/
def pyStrip (s : String) : String :=
  String.mk (((s.toList.dropWhile isWsChar).reverse.dropWhile isWsChar).reverse)

/-- The sentinel-or-exact unique count reported per column. -/
inductive UniqCount where
  | exact (n : ℕ)
  | toomany (ceil : ℕ)
deriving DecidableEq

/-- The accumulators of one summarization pass (source lines 358-370). -/
structure BigState where
  n_rows : ℕ
  label_counts : String → ℕ
  null_counts : String → ℕ
  col_max : String → Option ℚ
  col_min : String → Option ℚ
  col_numeric : String → Bool
  col_uniq_vals : String → Finset Val
  toomany : Finset String

/-- Initial accumulators: defaultdict(int), defaultdict(lambda: -inf / inf)
(none plays the role of the infinities), defaultdict(lambda: True),
defaultdict(set), empty too-many set. -/
def initBigState : BigState :=
  { n_rows := 0
    label_counts := fun _ => 0
    null_counts := fun _ => 0
    col_max := fun _ => none
    col_min := fun _ => none
    col_numeric := fun _ => true
    col_uniq_vals := fun _ => ∅
    toomany := ∅ }

/-- row_dict = dict(zip(colnames, row)); for a duplicated name the last
binding wins, a missing key is a KeyError (none). -/
def rowVal (colnames row : List String) (c : String) : Option String :=
  (((colnames.zip row).reverse).lookup c)

/-- max(old, v) with old starting at -inf. -/
def optMax (o : Option ℚ) (v : ℚ) : Option ℚ :=
  match o with
  | none => some v
  | some m => some (max m v)

/-- min(old, v) with old starting at inf. -/
def optMin (o : Option ℚ) (v : ℚ) : Option ℚ :=
  match o with
  | none => some v
  | some m => some (min m v)

/-- The body of the per-column loop (source lines 392-415) for one column c
with raw cell value raw: trim; count a null if blank; while the column is
still considered numeric try the parse, updating min/max on success and
permanently clearing the numeric flag on failure; finally add the current
value (parsed float or trimmed string) to the column's uniqueness set
unless the column is already marked too-many, and mark it too-many when
the set's size exceeds the ceiling. -/
def updateCol (parse : String → Option ℚ) (ceil : ℕ) (c : String) (raw : String)
    (st : BigState) : BigState :=
  let s := pyStrip raw
  let nulls := if s = "" then Function.update st.null_counts c (st.null_counts c + 1)
               else st.null_counts
  match (if s ≠ "" ∧ st.col_numeric c = true then some (parse s) else none) with
  | some (some q) =>
      let cur := st.col_uniq_vals c
      let cur2 := if c ∈ st.toomany then cur else insert (Val.num q) cur
      { st with
        null_counts := nulls
        col_max := Function.update st.col_max c (optMax (st.col_max c) q)
        col_min := Function.update st.col_min c (optMin (st.col_min c) q)
        col_uniq_vals := Function.update st.col_uniq_vals c cur2
        toomany := if ceil < cur2.card then insert c st.toomany else st.toomany }
  | some none =>
      let cur := st.col_uniq_vals c
      let cur2 := if c ∈ st.toomany then cur else insert (Val.str s) cur
      { st with
        null_counts := nulls
        col_numeric := Function.update st.col_numeric c false
        col_uniq_vals := Function.update st.col_uniq_vals c cur2
        toomany := if ceil < cur2.card then insert c st.toomany else st.toomany }
  | none =>
      let cur := st.col_uniq_vals c
      let cur2 := if c ∈ st.toomany then cur else insert (Val.str s) cur
      { st with
        null_counts := nulls
        col_uniq_vals := Function.update st.col_uniq_vals c cur2
        toomany := if ceil < cur2.card then insert c st.toomany else st.toomany }

/-- One iteration of the inner column loop: look the column up in the row
dict (KeyError when absent) and apply updateCol. -/
def colLoopStep (parse : String → Option ℚ) (ceil : ℕ) (colnames row : List String)
    (st2 : BigState) (c : String) : Except String BigState :=
  match rowVal colnames row c with
  | none => Except.error "KeyError"
  | some raw => Except.ok (updateCol parse ceil c raw st2)

/-- Processing of one data row (source lines 376-415): bump the row count,
record the raw label value unless the label column is already marked
too-many, then run the column loop; any missing key is a KeyError. -/
def processRow (parse : String → Option ℚ) (colnames : List String) (y : String)
    (ceil : ℕ) (st : BigState) (row : List String) : Except String BigState :=
  match rowVal colnames row y with
  | none => Except.error "KeyError"
  | some yval =>
      let st1 : BigState :=
        { st with
          n_rows := st.n_rows + 1
          label_counts :=
            if y ∈ st.toomany then st.label_counts
            else Function.update st.label_counts yval (st.label_counts yval + 1) }
      colnames.foldlM (colLoopStep parse ceil colnames row) st1

/-- The whole reading loop, over a list of data rows. -/
def runRows (parse : String → Option ℚ) (colnames : List String) (y : String)
    (ceil : ℕ) (rows : List (List String)) : Except String BigState :=
  rows.foldlM (processRow parse colnames y ceil) initBigState

/-- One row of the summary DataFrame built at source lines 417-434. -/
structure ColSummary where
  attr : String
  n_null : ℕ
  perc_null : ℚ
  max : Option ℚ
  min : Option ℚ
  n_uniq : UniqCount
deriving DecidableEq

/-- The per-column summary row: max/min are reported only while the column
is still flagged numeric (a still-infinite extreme is reported as None,
i.e. none); the unique count is the sentinel when the column is marked
too-many and the exact set size otherwise. -/
def bigColSummary (ceil : ℕ) (st : BigState) (c : String) : ColSummary :=
  { attr := c
    n_null := st.null_counts c
    perc_null := (st.null_counts c : ℚ) / (st.n_rows : ℚ)
    max := if st.col_numeric c then st.col_max c else none
    min := if st.col_numeric c then st.col_min c else none
    n_uniq := if c ∈ st.toomany then UniqCount.toomany ceil
              else UniqCount.exact (st.col_uniq_vals c).card }

/-- The three returned values (summary frame, n_rows, label counts); the
label distribution is None when the label column was marked too-many. -/
structure BigResult where
  summary : List ColSummary
  n_rows : ℕ
  label_counts : Option (String → ℕ)

/-- summarize_big_training_data on an already-decoded CSV (header colnames,
then data rows).  float(null_counts[colname])/n_rows raises
ZeroDivisionError when no data row was read and at least one column
exists; that is the empty-source failure.  The pickle side channel and the
progress printing are I/O effects outside the returned values and are not
modelled. -/
def summarize_big_training_data (parse : String → Option ℚ) (colnames : List String)
    (rows : List (List String)) (y : String) (ceil : ℕ) : Except String BigResult :=
  match runRows parse colnames y ceil rows with
  | Except.error e => Except.error e
  | Except.ok st =>
      if colnames ≠ [] ∧ st.n_rows = 0 then Except.error "ZeroDivisionError"
      else Except.ok
        { summary := colnames.map (fun c => bigColSummary ceil st c)
          n_rows := st.n_rows
          label_counts := if y ∈ st.toomany then none else some st.label_counts }

/-! ## In-memory summarizer (summarize_training_data, source lines 236-333) -/

/-- _is_null_or_blank: a numeric zero is never null; otherwise a value is
null-or-blank when it is falsy (the empty string) or pandas-null. -/
def isNullOrBlank (v : CellVal) : Bool :=
  match v with
  | CellVal.null => true
  | CellVal.num _ => false
  | CellVal.str s => decide (s = "")

/-- float(val) applied to a cell: a numeric cell is itself, a string cell
goes through the float parse. -/
def floatOfCell (parse : String → Option ℚ) (v : CellVal) : Option ℚ :=
  match v with
  | CellVal.null => none
  | CellVal.num q => some q
  | CellVal.str s => parse s

/-- _get_min_max: walk the column, skipping null-or-blank values; a parse
failure aborts with (nan, nan) (modelled none); infinities left over at
the end also become nan. -/
def getMinMaxAux (parse : String → Option ℚ) (mn mx : Option ℚ) :
    List CellVal → Option ℚ × Option ℚ
  | [] => (mn, mx)
  | v :: rest =>
      if isNullOrBlank v then getMinMaxAux parse mn mx rest
      else
        match floatOfCell parse v with
        | none => (none, none)
        | some q => getMinMaxAux parse (optMin mn q) (optMax mx q) rest

/-- _get_min_max over a whole column. -/
def getMinMax (parse : String → Option ℚ) (cells : List CellVal) : Option ℚ × Option ℚ :=
  getMinMaxAux parse none none cells

/-- _get_uniq: the number of distinct non-null-or-blank values, plus one when
any null-or-blank value occurs. -/
def getUniq (cells : List CellVal) : ℕ :=
  (cells.toFinset.filter (fun v => ¬ (isNullOrBlank v = true))).card +
    (if ∃ v ∈ cells.toFinset, isNullOrBlank v = true then 1 else 0)

/-- One row of the in-memory summary frame. -/
structure MemColSummary where
  attr : String
  max : Option ℚ
  min : Option ℚ
  n_null : ℕ
  n_uniq : ℕ
  perc_null : ℚ
deriving DecidableEq

/-- The three values returned by summarize_training_data; label counts come
from df[y].value_counts(dropna=False). -/
structure MemResult where
  summary : List MemColSummary
  n_rows : ℕ
  label_counts : CellVal → ℕ

/-- summarize_training_data: per-column min/max, null count, unique count and
null fraction over the materialized frame; df[y_name] on a missing label
column is a KeyError.  The pickle side channel is not modelled. -/
def summarize_training_data (parse : String → Option ℚ) (df : DataFrame) (y : String) :
    Except String MemResult :=
  match df.lookup y with
  | none => Except.error "KeyError"
  | some ycol =>
      Except.ok
        { summary := df.map (fun p =>
            let mm := getMinMax parse p.2
            { attr := p.1
              max := mm.2
              min := mm.1
              n_null := (p.2.filter (fun v => isNullOrBlank v)).length
              n_uniq := getUniq p.2
              perc_null := ((p.2.filter (fun v => isNullOrBlank v)).length : ℚ) / (nRows df : ℚ) })
          n_rows := nRows df
          label_counts := fun v => ycol.count v }

/-! ## Per-column projection of the streaming pass

The accumulators of summarize_big_training_data decompose per column: all
the state the pass keeps for one column c (null counter, min/max, numeric
flag, uniqueness set, too-many membership) evolves only through the
updateCol applications with first argument c.  ColAcc collects that state
and colStep mirrors updateCol on it; the projection lemmas below prove the
correspondence. -/

/-- The streaming accumulators of a single column. -/
@[ext] structure ColAcc where
  nulls : ℕ
  mn : Option ℚ
  mx : Option ℚ
  numeric : Bool
  uniq : Finset Val
  frozen : Bool
deriving DecidableEq

/-- Initial single-column accumulators. -/
def initColAcc : ColAcc :=
  { nulls := 0, mn := none, mx := none, numeric := true, uniq := ∅, frozen := false }

/-- updateCol restricted to one column (same branching, same updates). -/
def colStep (parse : String → Option ℚ) (ceil : ℕ) (a : ColAcc) (raw : String) : ColAcc :=
  let s := pyStrip raw
  let nulls := if s = "" then a.nulls + 1 else a.nulls
  match (if s ≠ "" ∧ a.numeric = true then some (parse s) else none) with
  | some (some q) =>
      let cur2 := if a.frozen = true then a.uniq else insert (Val.num q) a.uniq
      { nulls := nulls, mn := optMin a.mn q, mx := optMax a.mx q, numeric := a.numeric,
        uniq := cur2, frozen := a.frozen || decide (ceil < cur2.card) }
  | some none =>
      let cur2 := if a.frozen = true then a.uniq else insert (Val.str s) a.uniq
      { nulls := nulls, mn := a.mn, mx := a.mx, numeric := false,
        uniq := cur2, frozen := a.frozen || decide (ceil < cur2.card) }
  | none =>
      let cur2 := if a.frozen = true then a.uniq else insert (Val.str s) a.uniq
      { nulls := nulls, mn := a.mn, mx := a.mx, numeric := a.numeric,
        uniq := cur2, frozen := a.frozen || decide (ceil < cur2.card) }

/-- The single-column pass over a list of raw values. -/
def colRunFrom (parse : String → Option ℚ) (ceil : ℕ) (a : ColAcc) (vals : List String) :
    ColAcc :=
  vals.foldl (colStep parse ceil) a

/-- The single-column pass from the initial accumulators. -/
def colRun (parse : String → Option ℚ) (ceil : ℕ) (vals : List String) : ColAcc :=
  colRunFrom parse ceil initColAcc vals

/-- The column-c slice of the full streaming state. -/
def projCol (st : BigState) (c : String) : ColAcc :=
  { nulls := st.null_counts c, mn := st.col_min c, mx := st.col_max c,
    numeric := st.col_numeric c, uniq := st.col_uniq_vals c,
    frozen := decide (c ∈ st.toomany) }

/-- The raw values fed to updateCol for column c, row by row. -/
def colStream (colnames : List String) (rows : List (List String)) (c : String) :
    List String :=
  rows.map (fun r => (rowVal colnames r c).getD "")

/-- The value the pass stores for one raw cell once the column's numeric flag
is b: the parsed float while the flag is up and the parse succeeds, the
trimmed string otherwise; b evolves exactly as col_numeric does.  Folding
this over the column with no ceiling yields the full set of distinct
tracked values (colTracked), against which the too-many sentinel is
characterised. -/
def colTrackedAux (parse : String → Option ℚ) (b : Bool) (S : Finset Val) :
    List String → Finset Val
  | [] => S
  | v :: rest =>
      let s := pyStrip v
      match (if s ≠ "" ∧ b = true then some (parse s) else none) with
      | some (some q) => colTrackedAux parse b (insert (Val.num q) S) rest
      | some none => colTrackedAux parse false (insert (Val.str s) S) rest
      | none => colTrackedAux parse b (insert (Val.str s) S) rest

/-- The distinct values the pass would track for a column with no ceiling. -/
def colTracked (parse : String → Option ℚ) (vals : List String) : Finset Val :=
  colTrackedAux parse true ∅ vals

/-! ## Correspondence between a DataFrame cell and a CSV field (for the
refinement claim comparing the two summarizers) -/

/-- A DataFrame cell and the CSV text field holding the same logical value:
the null marker is a blank (all-whitespace) field; a numeric cell is a
field whose trimmed text parses to exactly that number; a string cell is
its own trimmed, nonempty, non-numeric text (a numeric-looking field loads
as a number, not as a string). -/
inductive CellCorr (parse : String → Option ℚ) : CellVal → String → Prop where
  | null (s : String) (h : pyStrip s = "") : CellCorr parse CellVal.null s
  | num (q : ℚ) (s : String) (h1 : pyStrip s ≠ "") (h2 : parse (pyStrip s) = some q) :
      CellCorr parse (CellVal.num q) s
  | str (t s : String) (h1 : pyStrip s = t) (h2 : t ≠ "") (h3 : parse t = none) :
      CellCorr parse (CellVal.str t) s

/-- The tracked value a cell contributes on the stream side, read off the
cell itself. -/
def valOf : CellVal → Val
  | CellVal.null => Val.str ""
  | CellVal.num q => Val.num q
  | CellVal.str t => Val.str t

/-- The tracked value of a raw field, independent of the numeric flag. -/
def streamVal (parse : String → Option ℚ) (s : String) : Val :=
  if pyStrip s = "" then Val.str ""
  else
    match parse (pyStrip s) with
    | some q => Val.num q
    | none => Val.str (pyStrip s)

/-- A nonempty field whose trimmed text does not parse (it trips the
col_numeric flag). -/
def parseTrips (parse : String → Option ℚ) (s : String) : Bool :=
  decide (pyStrip s ≠ "") && (parse (pyStrip s)).isNone

/-- A nonempty field whose trimmed text parses as a number. -/
def parseHits (parse : String → Option ℚ) (s : String) : Bool :=
  decide (pyStrip s ≠ "") && (parse (pyStrip s)).isSome

/-- No numeric field appears after a field that trips the non-numeric flag
(under this condition the tracked value of each field does not depend on
the flag's history). -/
def NoMixed (parse : String → Option ℚ) : List String → Bool
  | [] => true
  | v :: rest =>
      (!(parseTrips parse v) || rest.all (fun w => !(parseHits parse w))) &&
        NoMixed parse rest

/-! ## Helper lemmas -/

theorem inter_card_eq_iff_subset {α : Type} [DecidableEq α] (s t : Finset α) :
    (s ∩ t).card = s.card ↔ s ⊆ t := by
  constructor
  · intro h
    have h2 : s ∩ t = s :=
      Finset.eq_of_subset_of_card_le (Finset.inter_subset_left) (le_of_eq h.symm)
    exact Finset.inter_eq_left.mp h2
  · intro h
    rw [Finset.inter_eq_left.mpr h]

theorem binary_pred_eq (cells : List CellVal) :
    (if 2 < (distinctNonNull cells).card then false
     else decide ((distinctNonNull cells ∩
         ({CellVal.num 0, CellVal.num 1} : Finset CellVal)).card = (distinctNonNull cells).card))
    = decide (distinctNonNull cells ⊆ {CellVal.num 0, CellVal.num 1}) := by
  by_cases h : 2 < (distinctNonNull cells).card
  · have hns : ¬ distinctNonNull cells ⊆ {CellVal.num 0, CellVal.num 1} := by
      intro hsub
      have hc := Finset.card_le_card hsub
      have hp : ({CellVal.num 0, CellVal.num 1} : Finset CellVal).card ≤ 2 := by
        apply le_trans (Finset.card_insert_le _ _)
        simp
      omega
    simp [h, hns]
  · simp only [if_neg h]
    rw [decide_eq_decide]
    exact inter_card_eq_iff_subset _ _

/-! ## Claim theorems -/

/-- Claim C8 (corrected), counterexample: a column whose only entry is the
null marker has zero distinct non-null values, yet find_binary_cols
reports it. -/
theorem C8_counterexample :
    find_binary_cols [("c", [CellVal.null])] = ["c"] ∧
      distinctNonNull [CellVal.null] = ∅ := by
  constructor
  · rfl
  · decide

/-- Claim C8 (amended): the binary-column detector reports exactly the
columns whose set of distinct non-null values is a (possibly empty) subset
of {0,1}; in particular a column with no non-null value is also reported. -/
theorem C8_amended (df : DataFrame) :
    find_binary_cols df =
      (df.filter (fun p =>
        decide (distinctNonNull p.2 ⊆ {CellVal.num 0, CellVal.num 1}))).map
        (fun p => p.1) := by
  unfold find_binary_cols
  congr 1
  apply List.filter_congr
  intro p _
  exact binary_pred_eq p.2

/-- Claim C9 (corrected), counterexample: a one-row column holding the blank
string has null-or-blank fraction 1, yet find_null_cols with fraction 1
does not report it (pandas isnull is false on a blank string). -/
theorem C9_counterexample :
    find_null_cols [("c", [CellVal.str ""])] 1 = [] ∧
      isNullOrBlank (CellVal.str "") = true := by
  constructor
  · norm_num [find_null_cols, isPdNull, nRows]
  · rfl

/-- Claim C9 (amended): find_null_cols reports exactly the columns whose
pandas-null count (blank strings not included) divided by the row count is
at least the given fraction; with fraction 1 these are exactly the columns
all of whose entries are the null marker. -/
theorem C9_amended (df : DataFrame) (f : ℚ) (c : String)
    (hwf : ∀ p ∈ df, p.2.length = nRows df) (h0 : 0 < nRows df) :
    (c ∈ find_null_cols df f ↔
      ∃ cells, (c, cells) ∈ df ∧
        f ≤ ((cells.filter (fun v => isPdNull v)).length : ℚ) / (nRows df : ℚ)) ∧
    (c ∈ find_null_cols df 1 ↔
      ∃ cells, (c, cells) ∈ df ∧ ∀ v ∈ cells, v = CellVal.null) := by
  have hmem : ∀ g : ℚ, c ∈ find_null_cols df g ↔
      ∃ cells, (c, cells) ∈ df ∧
        g ≤ ((cells.filter (fun v => isPdNull v)).length : ℚ) / (nRows df : ℚ) := by
    intro g
    unfold find_null_cols
    simp only [List.mem_map, List.mem_filter, decide_eq_true_eq]
    constructor
    · rintro ⟨p, ⟨hp, hle⟩, rfl⟩
      exact ⟨p.2, hp, hle⟩
    · rintro ⟨cells, hp, hle⟩
      exact ⟨(c, cells), ⟨hp, hle⟩, rfl⟩
  refine ⟨hmem f, ?_⟩
  rw [hmem 1]
  constructor
  · rintro ⟨cells, hp, hle⟩
    refine ⟨cells, hp, ?_⟩
    have hlen : cells.length = nRows df := hwf (c, cells) hp
    have hn0 : (0 : ℚ) < (nRows df : ℚ) := by exact_mod_cast h0
    rw [le_div_iff₀ hn0, one_mul] at hle
    have hcount : (nRows df : ℚ) ≤ ((cells.filter (fun v => isPdNull v)).length : ℚ) := hle
    have hcard : nRows df ≤ (cells.filter (fun v => isPdNull v)).length := by exact_mod_cast hcount
    have hsub : (cells.filter (fun v => isPdNull v)).length ≤ cells.length :=
      List.length_filter_le _ _
    have heq : (cells.filter (fun v => isPdNull v)).length = cells.length := by omega
    have hfe : cells.filter (fun v => isPdNull v) = cells :=
      (List.filter_sublist cells).eq_of_length heq
    intro v hv
    have : isPdNull v = true := List.of_mem_filter (hfe.symm ▸ hv)
    cases v with
    | null => rfl
    | num q => simp [isPdNull] at this
    | str s => simp [isPdNull] at this
  · rintro ⟨cells, hp, hall⟩
    refine ⟨cells, hp, ?_⟩
    have hlen : cells.length = nRows df := hwf (c, cells) hp
    have hfe : cells.filter (fun v => isPdNull v) = cells := by
      apply List.filter_eq_self.mpr
      intro v hv
      rw [hall v hv]
      rfl
    rw [hfe, hlen]
    have hn0 : (0 : ℚ) < (nRows df : ℚ) := by exact_mod_cast h0
    rw [le_div_iff₀ hn0, one_mul]

/-- Claim C9 witness: instantiation of the amended theorem at a concrete
all-null one-column frame. -/
theorem C9_witness :
    ("c" ∈ find_null_cols [("c", [CellVal.null])] 1 ↔
      ∃ cells, ("c", cells) ∈ ([("c", [CellVal.null])] : DataFrame) ∧
        ∀ v ∈ cells, v = CellVal.null) := by
  have h := C9_amended [("c", [CellVal.null])] 1 "c"
    (by intro p hp; simp at hp; subst hp; rfl) (by decide)
  exact h.2

/-- Claim C4 (corrected), counterexample: with an empty header line (no
column names) and zero data rows, summarize_big_training_data returns
successfully with n_rows = 0 instead of failing. -/
theorem C4_counterexample :
    (summarize_big_training_data (fun _ => none) [] [] "Label" 1000).isOk = true ∧
      (summarize_big_training_data (fun _ => none) [] [] "Label" 1000).toOption.map
        (fun r => r.n_rows) = some 0 := by
  constructor
  · rfl
  · rfl

/-- Claim C4 (amended): whenever the header names at least one column and the
source yields zero data rows, summarize_big_training_data fails with the
empty-source division error (float(null_count)/n_rows with n_rows = 0)
rather than returning NaN-filled output; only the degenerate zero-column
header returns (an empty summary, without NaN statistics). -/
theorem C4_amended (parse : String → Option ℚ) (colnames : List String)
    (y : String) (ceil : ℕ) (h : colnames ≠ []) :
    summarize_big_training_data parse colnames [] y ceil =
      Except.error "ZeroDivisionError" := by
  have hrun : runRows parse colnames y ceil [] = Except.ok initBigState := rfl
  unfold summarize_big_training_data
  rw [hrun]
  simp [initBigState, h]

/-- Claim C4 witness: the amended theorem applied to a concrete one-column
header. -/
theorem C4_witness :
    summarize_big_training_data (fun _ => none) ["a"] [] "L" 1000 =
      Except.error "ZeroDivisionError" :=
  C4_amended (fun _ => none) ["a"] "L" 1000 (by decide)

/-! ## Reachability lemmas for the clusterer -/

theorem mem_getNeighbors (M : CorrMatrix) (t : ℚ) (a b : String) :
    b ∈ getNeighbors M t a ↔
      b ≠ a ∧ b ∈ M.cols ∧ ∃ v, M.corr b a = some v ∧ t ≤ v := by
  unfold getNeighbors
  rw [Finset.mem_erase, List.mem_toFinset, List.mem_filter]
  constructor
  · rintro ⟨hne, hb, hm⟩
    refine ⟨hne, hb, ?_⟩
    cases hc : M.corr b a with
    | none => rw [hc] at hm; simp at hm
    | some v => rw [hc] at hm; simp at hm; exact ⟨v, rfl, hm⟩
  · rintro ⟨hne, hb, v, hv, hle⟩
    refine ⟨hne, hb, ?_⟩
    rw [hv]
    simpa using hle

theorem getNeighbors_subset (M : CorrMatrix) (t : ℚ) (a : String) :
    getNeighbors M t a ⊆ M.cols.toFinset := by
  intro b hb
  rw [List.mem_toFinset]
  exact ((mem_getNeighbors M t a b).mp hb).2.1

theorem subset_clusterExpand (M : CorrMatrix) (t : ℚ) (S : Finset String) :
    S ⊆ clusterExpand M t S :=
  Finset.subset_union_left

theorem clusterExpand_subset (M : CorrMatrix) (t : ℚ) (n : String) (S : Finset String)
    (h : S ⊆ insert n M.cols.toFinset) :
    clusterExpand M t S ⊆ insert n M.cols.toFinset := by
  unfold clusterExpand
  apply Finset.union_subset h
  intro x hx
  rw [Finset.mem_biUnion] at hx
  obtain ⟨a, _, hxa⟩ := hx
  exact Finset.mem_insert_of_mem (getNeighbors_subset M t a hxa)

theorem iterate_clusterExpand_subset (M : CorrMatrix) (t : ℚ) (n : String) :
    ∀ k, (clusterExpand M t)^[k] {n} ⊆ insert n M.cols.toFinset := by
  intro k
  induction k with
  | zero => simp
  | succ k ih =>
      rw [Function.iterate_succ_apply']
      exact clusterExpand_subset M t n _ ih

theorem subset_iterate_clusterExpand (M : CorrMatrix) (t : ℚ) (S : Finset String) :
    ∀ k, S ⊆ (clusterExpand M t)^[k] S := by
  intro k
  induction k with
  | zero => simp
  | succ k ih =>
      rw [Function.iterate_succ_apply']
      exact ih.trans (subset_clusterExpand M t _)

theorem iterate_fixed_of_card_bound (f : Finset String → Finset String)
    (hf : ∀ S, S ⊆ f S) (B : ℕ) (S : Finset String)
    (hb : ∀ k, (f^[k] S).card ≤ B) (hS : S.Nonempty) :
    f (f^[B] S) = f^[B] S := by
  have key : ∀ k, f (f^[k] S) = f^[k] S ∨ k + S.card ≤ (f^[k] S).card := by
    intro k
    induction k with
    | zero => right; simp
    | succ k ih =>
        by_cases hfix : f (f^[k + 1] S) = f^[k + 1] S
        · left; exact hfix
        · right
          rcases ih with h | h
          · exfalso
            apply hfix
            have e1 : f^[k + 1] S = f^[k] S := by
              rw [Function.iterate_succ_apply', h]
            rw [e1, h, ← e1]
          · have hsub : f^[k] S ⊆ f^[k + 1] S := by
              rw [Function.iterate_succ_apply']
              exact hf _
            have hne : f^[k] S ≠ f^[k + 1] S := by
              intro he
              apply hfix
              rw [← he, ← Function.iterate_succ_apply' f k S, he]
            have hlt : (f^[k] S).card < (f^[k + 1] S).card :=
              Finset.card_lt_card (HasSubset.Subset.ssubset_of_ne hsub hne)
            omega
  rcases key B with h | h
  · exact h
  · exfalso
    have h1 := hb B
    have h2 : 1 ≤ S.card := Finset.card_pos.mpr hS
    omega

theorem clusterExpand_getCluster (M : CorrMatrix) (t : ℚ) (n : String) :
    clusterExpand M t (getCluster M t n) = getCluster M t n := by
  unfold getCluster
  apply iterate_fixed_of_card_bound (clusterExpand M t) (subset_clusterExpand M t)
    (M.cols.length + 1) {n}
  · intro k
    have h1 := Finset.card_le_card (iterate_clusterExpand_subset M t n k)
    have h2 : (insert n M.cols.toFinset).card ≤ M.cols.toFinset.card + 1 :=
      Finset.card_insert_le _ _
    have h3 : M.cols.toFinset.card ≤ M.cols.length := M.cols.toFinset_card_le
    omega
  · exact Finset.singleton_nonempty n

theorem mem_getCluster_self (M : CorrMatrix) (t : ℚ) (n : String) :
    n ∈ getCluster M t n := by
  have h := subset_iterate_clusterExpand M t {n} (M.cols.length + 1)
  exact h (Finset.mem_singleton_self n)

theorem mem_getCluster (M : CorrMatrix) (t : ℚ) (n m : String) :
    m ∈ getCluster M t n ↔ Relation.ReflTransGen (corrAdj M t) n m := by
  constructor
  · have gen : ∀ k x, x ∈ (clusterExpand M t)^[k] {n} →
        Relation.ReflTransGen (corrAdj M t) n x := by
      intro k
      induction k with
      | zero =>
          intro x hx
          simp at hx
          rw [hx]
      | succ k ih =>
          intro x hx
          rw [Function.iterate_succ_apply'] at hx
          unfold clusterExpand at hx
          rw [Finset.mem_union] at hx
          rcases hx with hx | hx
          · exact ih x hx
          · rw [Finset.mem_biUnion] at hx
            obtain ⟨a, ha, hxa⟩ := hx
            exact Relation.ReflTransGen.tail (ih a ha) hxa
    exact gen (M.cols.length + 1) m
  · intro h
    induction h with
    | refl => exact mem_getCluster_self M t n
    | tail h1 h2 ih =>
        rename_i b c
        have : c ∈ clusterExpand M t (getCluster M t n) := by
          unfold clusterExpand
          rw [Finset.mem_union, Finset.mem_biUnion]
          right
          exact ⟨b, ih, h2⟩
        rwa [clusterExpand_getCluster] at this

theorem corrAdj_mono (M : CorrMatrix) (t1 t2 : ℚ) (h : t1 ≤ t2) (a b : String)
    (hab : corrAdj M t2 a b) : corrAdj M t1 a b := by
  unfold corrAdj at hab ⊢
  rw [mem_getNeighbors] at hab ⊢
  obtain ⟨hne, hb, v, hv, hle⟩ := hab
  exact ⟨hne, hb, v, hv, le_trans h hle⟩

theorem getCluster_mono (M : CorrMatrix) (t1 t2 : ℚ) (h : t1 ≤ t2) (n : String) :
    getCluster M t2 n ⊆ getCluster M t1 n := by
  intro m hm
  rw [mem_getCluster] at hm ⊢
  exact Relation.ReflTransGen.mono (corrAdj_mono M t1 t2 h) hm

theorem getCluster_subset_cols (M : CorrMatrix) (t : ℚ) (n : String) (hn : n ∈ M.cols) :
    getCluster M t n ⊆ M.cols.toFinset := by
  have h := iterate_clusterExpand_subset M t n (M.cols.length + 1)
  unfold getCluster
  intro x hx
  have := h hx
  rw [Finset.mem_insert] at this
  rcases this with rfl | hmem
  · rwa [List.mem_toFinset]
  · exact hmem

theorem corrAdj_symm (M : CorrMatrix) (t : ℚ)
    (hsym : ∀ a b, M.corr a b = M.corr b a) (a b : String) (ha : a ∈ M.cols)
    (hab : corrAdj M t a b) : corrAdj M t b a := by
  unfold corrAdj at hab ⊢
  rw [mem_getNeighbors] at hab ⊢
  obtain ⟨hne, _, v, hv, hle⟩ := hab
  refine ⟨fun h => hne h.symm, ha, v, ?_, hle⟩
  rw [hsym a b, ← hv]

theorem rtg_corrAdj_mem (M : CorrMatrix) (t : ℚ) (n m : String) (hn : n ∈ M.cols)
    (h : Relation.ReflTransGen (corrAdj M t) n m) : m ∈ M.cols := by
  induction h with
  | refl => exact hn
  | tail h1 h2 ih =>
      rename_i b c
      unfold corrAdj at h2
      rw [mem_getNeighbors] at h2
      exact h2.2.1

theorem rtg_corrAdj_symm (M : CorrMatrix) (t : ℚ)
    (hsym : ∀ a b, M.corr a b = M.corr b a) (n m : String) (hn : n ∈ M.cols)
    (h : Relation.ReflTransGen (corrAdj M t) n m) :
    Relation.ReflTransGen (corrAdj M t) m n := by
  induction h with
  | refl => exact Relation.ReflTransGen.refl
  | tail h1 h2 ih =>
      rename_i b c
      have hb : b ∈ M.cols := rtg_corrAdj_mem M t n b hn h1
      have hcb : corrAdj M t c b := corrAdj_symm M t hsym b c hb h2
      exact Relation.ReflTransGen.head hcb ih

theorem getCluster_disjoint (M : CorrMatrix) (t : ℚ)
    (hsym : ∀ a b, M.corr a b = M.corr b a) (s σ : String) (hs : s ∈ M.cols)
    (hns : s ∉ getCluster M t σ) :
    Disjoint (getCluster M t σ) (getCluster M t s) := by
  rw [Finset.disjoint_right]
  intro x hxs hxσ
  apply hns
  rw [mem_getCluster] at hxs hxσ ⊢
  exact hxσ.trans (rtg_corrAdj_symm M t hsym s x hs hxs)

/-! ## Fold invariants for get_feature_clusters -/

theorem gfc_fold_ok (M : CorrMatrix) (t : ℚ) (nodes : List String) :
    ∀ (acc res : List (Finset String)),
      nodes.foldlM (gfcStep M t) acc = Except.ok res →
      (∀ cl ∈ acc, cl ∈ res) ∧
      (∀ n ∈ nodes, ∃ cl ∈ res, n ∈ cl) ∧
      (∀ cl ∈ res, cl ∈ acc ∨ ∃ σ, σ ∈ M.cols ∧ σ ∈ nodes ∧ cl = getCluster M t σ) := by
  induction nodes with
  | nil =>
      intro acc res h
      replace h : Except.ok acc = Except.ok res := h
      cases h
      refine ⟨fun cl hcl => hcl, ?_, fun cl hcl => Or.inl hcl⟩
      intro n hn
      simp at hn
  | cons cn ns IH =>
      intro acc res h
      rw [List.foldlM_cons] at h
      by_cases hseen : acc.any (fun cl => decide (cn ∈ cl)) = true
      · have hstep : gfcStep M t acc cn = Except.ok acc := by
          simp only [gfcStep, if_pos hseen]
        rw [hstep] at h
        replace h : ns.foldlM (gfcStep M t) acc = Except.ok res := h
        obtain ⟨ih1, ih2, ih3⟩ := IH acc res h
        refine ⟨ih1, ?_, ?_⟩
        · intro n hn
          rcases List.mem_cons.mp hn with rfl | hn
          · rw [List.any_eq_true] at hseen
            obtain ⟨cl, hcl, hmem⟩ := hseen
            rw [decide_eq_true_eq] at hmem
            exact ⟨cl, ih1 cl hcl, hmem⟩
          · exact ih2 n hn
        · intro cl hcl
          rcases ih3 cl hcl with hin | ⟨σ, h1, h2, h3⟩
          · exact Or.inl hin
          · exact Or.inr ⟨σ, h1, List.mem_cons_of_mem cn h2, h3⟩
      · by_cases hcn : cn ∈ M.cols
        · have hstep : gfcStep M t acc cn = Except.ok (acc ++ [getCluster M t cn]) := by
            simp only [gfcStep, if_neg hseen, if_pos hcn]
          rw [hstep] at h
          replace h : ns.foldlM (gfcStep M t) (acc ++ [getCluster M t cn]) = Except.ok res := h
          obtain ⟨ih1, ih2, ih3⟩ := IH (acc ++ [getCluster M t cn]) res h
          refine ⟨?_, ?_, ?_⟩
          · intro cl hcl
            exact ih1 cl (List.mem_append_left _ hcl)
          · intro n hn
            rcases List.mem_cons.mp hn with rfl | hn
            · refine ⟨getCluster M t n, ?_, mem_getCluster_self M t n⟩
              exact ih1 _ (List.mem_append_right _ (List.mem_singleton_self _))
            · exact ih2 n hn
          · intro cl hcl
            rcases ih3 cl hcl with hin | ⟨σ, h1, h2, h3⟩
            · rcases List.mem_append.mp hin with hin | hin
              · exact Or.inl hin
              · rw [List.mem_singleton] at hin
                exact Or.inr ⟨cn, hcn, List.mem_cons_self cn ns, hin⟩
            · exact Or.inr ⟨σ, h1, List.mem_cons_of_mem cn h2, h3⟩
        · have hstep : gfcStep M t acc cn = Except.error "KeyError" := by
            simp only [gfcStep, if_neg hseen, if_neg hcn]
          rw [hstep] at h
          replace h : (Except.error "KeyError" : Except String (List (Finset String))) =
              Except.ok res := h
          exact Except.noConfusion h

theorem gfc_fold_pairwise (M : CorrMatrix) (t : ℚ)
    (hsym : ∀ a b, M.corr a b = M.corr b a) (nodes : List String) :
    ∀ (acc res : List (Finset String)),
      nodes.foldlM (gfcStep M t) acc = Except.ok res →
      (∀ cl ∈ acc, ∃ σ, σ ∈ M.cols ∧ cl = getCluster M t σ) →
      List.Pairwise Disjoint acc →
      (∀ cl ∈ res, ∃ σ, σ ∈ M.cols ∧ cl = getCluster M t σ) ∧
        List.Pairwise Disjoint res := by
  induction nodes with
  | nil =>
      intro acc res h hform hpw
      replace h : Except.ok acc = Except.ok res := h
      cases h
      exact ⟨hform, hpw⟩
  | cons cn ns IH =>
      intro acc res h hform hpw
      rw [List.foldlM_cons] at h
      by_cases hseen : acc.any (fun cl => decide (cn ∈ cl)) = true
      · have hstep : gfcStep M t acc cn = Except.ok acc := by
          simp only [gfcStep, if_pos hseen]
        rw [hstep] at h
        replace h : ns.foldlM (gfcStep M t) acc = Except.ok res := h
        exact IH acc res h hform hpw
      · by_cases hcn : cn ∈ M.cols
        · have hstep : gfcStep M t acc cn = Except.ok (acc ++ [getCluster M t cn]) := by
            simp only [gfcStep, if_neg hseen, if_pos hcn]
          rw [hstep] at h
          replace h : ns.foldlM (gfcStep M t) (acc ++ [getCluster M t cn]) = Except.ok res := h
          apply IH _ res h
          · intro cl hcl
            rcases List.mem_append.mp hcl with hin | hin
            · exact hform cl hin
            · rw [List.mem_singleton] at hin
              exact ⟨cn, hcn, hin⟩
          · rw [List.pairwise_append]
            refine ⟨hpw, List.pairwise_singleton _ _, ?_⟩
            intro cl hcl cl2 hcl2
            rw [List.mem_singleton] at hcl2
            subst hcl2
            obtain ⟨σ, hσc, rfl⟩ := hform cl hcl
            apply getCluster_disjoint M t hsym cn σ hcn
            simp only [Bool.not_eq_true, List.any_eq_false, decide_eq_true_eq] at hseen
            exact hseen _ hcl
        · have hstep : gfcStep M t acc cn = Except.error "KeyError" := by
            simp only [gfcStep, if_neg hseen, if_neg hcn]
          rw [hstep] at h
          replace h : (Except.error "KeyError" : Except String (List (Finset String))) =
              Except.ok res := h
          exact Except.noConfusion h

theorem gfc_fold_exists_ok (M : CorrMatrix) (t : ℚ) (nodes : List String) :
    ∀ acc : List (Finset String), (∀ n ∈ nodes, n ∈ M.cols) →
      ∃ res, nodes.foldlM (gfcStep M t) acc = Except.ok res := by
  induction nodes with
  | nil =>
      intro acc _
      exact ⟨acc, rfl⟩
  | cons cn ns IH =>
      intro acc hn
      have hcn : cn ∈ M.cols := hn cn (List.mem_cons_self cn ns)
      rw [List.foldlM_cons]
      by_cases hseen : acc.any (fun cl => decide (cn ∈ cl)) = true
      · have hstep : gfcStep M t acc cn = Except.ok acc := by
          simp only [gfcStep, if_pos hseen]
        rw [hstep]
        obtain ⟨res, hres⟩ := IH acc (fun n h => hn n (List.mem_cons_of_mem cn h))
        exact ⟨res, hres⟩
      · have hstep : gfcStep M t acc cn = Except.ok (acc ++ [getCluster M t cn]) := by
          simp only [gfcStep, if_neg hseen, if_pos hcn]
        rw [hstep]
        obtain ⟨res, hres⟩ := IH (acc ++ [getCluster M t cn])
          (fun n h => hn n (List.mem_cons_of_mem cn h))
        exact ⟨res, hres⟩

theorem mem_foldr_union (cls : List (Finset String)) (x : String) :
    x ∈ cls.foldr (fun a b => a ∪ b) ∅ ↔ ∃ cl ∈ cls, x ∈ cl := by
  induction cls with
  | nil => simp
  | cons cl cls ih => simp [ih]

/-- A concrete two-column correlation matrix (columns A and B perfectly
correlated), used by counterexamples and witnesses. -/
def cxMatrix : CorrMatrix :=
  { cols := ["A", "B"]
    corr := fun a b =>
      if a = b then some 1
      else if (a = "A" ∨ a = "B") ∧ (b = "A" ∨ b = "B") then some 1
      else none }

theorem cxMatrix_symm : ∀ a b, cxMatrix.corr a b = cxMatrix.corr b a := by
  intro a b
  by_cases hab : a = b
  · subst hab; rfl
  · have hba : ¬ b = a := fun h => hab h.symm
    simp only [cxMatrix, if_neg hab, if_neg hba]
    by_cases h1 : (a = "A" ∨ a = "B") ∧ (b = "A" ∨ b = "B")
    · rw [if_pos h1, if_pos ⟨h1.2, h1.1⟩]
    · rw [if_neg h1, if_neg (fun h => h1 ⟨h.2, h.1⟩)]

/-- Claim C1 (corrected), counterexample: with the explicit column set ["A"]
on a table whose columns are A and B with corr(A,B)=1 >= thresh, the
returned clustering is a single cluster that also contains B, so the union
of the clusters is {A,B}, strictly larger than the considered set {A}
(the BFS follows neighbors through the whole correlation matrix, not just
through the requested columns). -/
theorem C1_counterexample :
    (get_feature_clusters cxMatrix (some ["A"]) 1).isOk = true ∧
      ((get_feature_clusters cxMatrix (some ["A"]) 1).toOption.getD []).foldr
        (fun a b => a ∪ b) ∅ ≠ ({"A"} : Finset String) := by
  constructor
  · rfl
  · intro h
    have hB : "B" ∈ ({"A"} : Finset String) := by
      rw [← h]
      decide
    simp at hB

/-- Claim C1 (amended): the clusters returned by get_feature_clusters are
pairwise disjoint and every considered column lies in (exactly) one of
them; when the columns argument is omitted their union is exactly the set
of all table columns, but for an explicit columns subset the union may
strictly contain it (clusters absorb every transitively correlated table
column).  The symmetry hypothesis holds for every matrix produced by
df.corr. -/
theorem C1_amended (M : CorrMatrix) (t : ℚ) (cols : Option (List String))
    (hsym : ∀ a b, M.corr a b = M.corr b a)
    (cls : List (Finset String)) (h : get_feature_clusters M cols t = Except.ok cls) :
    List.Pairwise Disjoint cls ∧
      (∀ n ∈ cols.getD M.cols, ∃ cl ∈ cls, n ∈ cl) ∧
      (cols = none → cls.foldr (fun a b => a ∪ b) ∅ = M.cols.toFinset) := by
  unfold get_feature_clusters at h
  obtain ⟨_, hcov, hform⟩ := gfc_fold_ok M t (cols.getD M.cols) [] cls h
  obtain ⟨hform2, hpw⟩ := gfc_fold_pairwise M t hsym (cols.getD M.cols) [] cls h
    (by intro cl hcl; simp at hcl) (List.Pairwise.nil)
  refine ⟨hpw, hcov, ?_⟩
  intro hnone
  subst hnone
  apply Finset.ext
  intro x
  rw [mem_foldr_union, List.mem_toFinset]
  constructor
  · rintro ⟨cl, hcl, hx⟩
    obtain ⟨σ, hσ, rfl⟩ := hform2 cl hcl
    have := getCluster_subset_cols M t σ hσ hx
    rwa [List.mem_toFinset] at this
  · intro hx
    exact hcov x hx

/-- Claim C1 witness: the amended theorem applied to the concrete matrix with
the default column set. -/
theorem C1_witness :
    List.Pairwise Disjoint ((get_feature_clusters cxMatrix none 1).toOption.getD []) ∧
      (∀ n ∈ (none : Option (List String)).getD cxMatrix.cols,
        ∃ cl ∈ (get_feature_clusters cxMatrix none 1).toOption.getD [], n ∈ cl) ∧
      ((none : Option (List String)) = none →
        ((get_feature_clusters cxMatrix none 1).toOption.getD []).foldr
          (fun a b => a ∪ b) ∅ = cxMatrix.cols.toFinset) :=
  C1_amended cxMatrix 1 none cxMatrix_symm
    ((get_feature_clusters cxMatrix none 1).toOption.getD []) rfl

/-- Claim C3 (confirmed): for thresholds t1 < t2 every cluster returned at
threshold t2 is contained in some cluster returned at threshold t1 (with
the same node list); raising the threshold only refines the clustering. -/
theorem C3_monotone (M : CorrMatrix) (t1 t2 : ℚ) (nodes : List String)
    (h12 : t1 < t2) (cls1 cls2 : List (Finset String))
    (h1 : get_feature_clusters M (some nodes) t1 = Except.ok cls1)
    (h2 : get_feature_clusters M (some nodes) t2 = Except.ok cls2) :
    ∀ cl2 ∈ cls2, ∃ cl1 ∈ cls1, cl2 ⊆ cl1 := by
  unfold get_feature_clusters at h1 h2
  intro cl2 hcl2
  obtain ⟨_, _, hform2⟩ := gfc_fold_ok M t2 nodes [] cls2 h2
  obtain ⟨_, hcov1, hform1⟩ := gfc_fold_ok M t1 nodes [] cls1 h1
  rcases hform2 cl2 hcl2 with hin | ⟨σ, hσc, hσn, rfl⟩
  · simp at hin
  obtain ⟨cl1, hcl1, hσ1⟩ := hcov1 σ hσn
  refine ⟨cl1, hcl1, ?_⟩
  rcases hform1 cl1 hcl1 with hin | ⟨τ, hτc, hτn, rfl⟩
  · simp at hin
  intro x hx
  rw [mem_getCluster] at hx hσ1 ⊢
  exact hσ1.trans (Relation.ReflTransGen.mono (corrAdj_mono M t1 t2 (le_of_lt h12)) hx)

/-- Claim C3 witness: at threshold 2 the concrete matrix splits into
singletons, each contained in the single cluster produced at threshold 1. -/
theorem C3_witness :
    ∃ cl1 ∈ (get_feature_clusters cxMatrix (some ["A", "B"]) 1).toOption.getD [],
      ({"A"} : Finset String) ⊆ cl1 := by
  have h := C3_monotone cxMatrix 1 2 ["A", "B"] (by norm_num)
    ((get_feature_clusters cxMatrix (some ["A", "B"]) 1).toOption.getD [])
    ((get_feature_clusters cxMatrix (some ["A", "B"]) 2).toOption.getD [])
    rfl rfl
  apply h
  decide

/-- Claim C6 (corrected), counterexample: the out-of-range threshold 2 is
accepted without any failure (get_feature_clusters performs no threshold
validation; every correlation is below 2, so all clusters are
singletons). -/
theorem C6_counterexample :
    (get_feature_clusters cxMatrix none 2).isOk = true ∧ ¬ ((2 : ℚ) ≤ 1) := by
  constructor
  · rfl
  · norm_num

/-- Claim C6 (amended): the clusterer never validates the threshold — with
the default column set the call succeeds for every rational threshold —
while a name absent from the table at the head of the columns argument
makes the call fail with the KeyError raised inside get_neighbors (the
lookup df_corr[n]), not with a dedicated InvalidArgument check. -/
theorem C6_amended (M : CorrMatrix) (t : ℚ) :
    (∃ cls, get_feature_clusters M none t = Except.ok cls) ∧
      (∀ bad rest, bad ∉ M.cols →
        get_feature_clusters M (some (bad :: rest)) t = Except.error "KeyError") := by
  constructor
  · exact gfc_fold_exists_ok M t M.cols [] (fun n h => h)
  · intro bad rest hbad
    unfold get_feature_clusters
    rw [Option.getD_some, List.foldlM_cons]
    have hstep : gfcStep M t [] bad = Except.error "KeyError" := by
      simp [gfcStep, hbad]
    rw [hstep]
    rfl

/-- Claim C6 witness: the amended theorem applied at a concrete matrix and an
unknown head column. -/
theorem C6_witness :
    get_feature_clusters cxMatrix (some ["bad", "A"]) 1 = Except.error "KeyError" :=
  (C6_amended cxMatrix 1).2 "bad" ["A"] (by decide)

/-! ## updateCol field lemmas -/

theorem updateCol_n_rows (parse : String → Option ℚ) (ceil : ℕ) (c raw : String)
    (st : BigState) : (updateCol parse ceil c raw st).n_rows = st.n_rows := by
  simp only [updateCol]
  split <;> rfl

theorem updateCol_label (parse : String → Option ℚ) (ceil : ℕ) (c raw : String)
    (st : BigState) : (updateCol parse ceil c raw st).label_counts = st.label_counts := by
  simp only [updateCol]
  split <;> rfl

theorem updateCol_toomany_mono (parse : String → Option ℚ) (ceil : ℕ) (c raw : String)
    (st : BigState) : st.toomany ⊆ (updateCol parse ceil c raw st).toomany := by
  intro x hx
  simp only [updateCol]
  split <;> dsimp only [] <;> (repeat' split) <;>
    first | exact hx | simp [Finset.mem_insert, hx]

theorem updateCol_uniq_frozen (parse : String → Option ℚ) (ceil : ℕ) (c raw c2 : String)
    (st : BigState) (h : c2 ∈ st.toomany) :
    (updateCol parse ceil c raw st).col_uniq_vals c2 = st.col_uniq_vals c2 := by
  by_cases hc : c = c2
  · subst hc
    simp only [updateCol]
    split <;> simp [Function.update_same, h]
  · have hne : c2 ≠ c := fun he => hc he.symm
    simp only [updateCol]
    split <;> simp [Function.update_noteq hne]

theorem projCol_updateCol_self (parse : String → Option ℚ) (ceil : ℕ) (c raw : String)
    (st : BigState) :
    projCol (updateCol parse ceil c raw st) c = colStep parse ceil (projCol st c) raw := by
  rcases hX : (if pyStrip raw ≠ "" ∧ st.col_numeric c = true then some (parse (pyStrip raw)) else none)
    with _ | ⟨_ | q⟩ <;>
    by_cases hm : c ∈ st.toomany <;>
    · ext <;>
        simp only [updateCol, colStep, projCol, hX] <;>
        (repeat' split) <;>
        simp_all [Function.update_same, Finset.mem_insert]

theorem projCol_updateCol_other (parse : String → Option ℚ) (ceil : ℕ) (c c2 raw : String)
    (st : BigState) (hne : c ≠ c2) :
    projCol (updateCol parse ceil c2 raw st) c = projCol st c := by
  rcases hX : (if pyStrip raw ≠ "" ∧ st.col_numeric c2 = true then some (parse (pyStrip raw)) else none)
    with _ | ⟨_ | q⟩ <;>
    · ext <;>
        simp only [updateCol, projCol, hX] <;>
        (repeat' split) <;>
        simp_all [Function.update_noteq hne, Finset.mem_insert, hne]

theorem updateCol_char (parse : String → Option ℚ) (ceil : ℕ) (c raw : String)
    (st : BigState) :
    ∃ val : Val,
      (updateCol parse ceil c raw st).col_uniq_vals =
        Function.update st.col_uniq_vals c
          (if c ∈ st.toomany then st.col_uniq_vals c
            else insert val (st.col_uniq_vals c)) ∧
      (updateCol parse ceil c raw st).toomany =
        (if ceil < (if c ∈ st.toomany then st.col_uniq_vals c
              else insert val (st.col_uniq_vals c)).card
          then insert c st.toomany else st.toomany) := by
  simp only [updateCol]
  split
  · exact ⟨_, rfl, rfl⟩
  · exact ⟨_, rfl, rfl⟩
  · exact ⟨_, rfl, rfl⟩

theorem updateCol_card (parse : String → Option ℚ) (ceil : ℕ) (c raw : String)
    (st : BigState)
    (hinv : ∀ c2, (c2 ∉ st.toomany → (st.col_uniq_vals c2).card ≤ ceil) ∧
      (st.col_uniq_vals c2).card ≤ ceil + 1) :
    ∀ c2, (c2 ∉ (updateCol parse ceil c raw st).toomany →
        ((updateCol parse ceil c raw st).col_uniq_vals c2).card ≤ ceil) ∧
      ((updateCol parse ceil c raw st).col_uniq_vals c2).card ≤ ceil + 1 := by
  obtain ⟨val, hu, ht⟩ := updateCol_char parse ceil c raw st
  intro c2
  by_cases hc : c2 = c
  · subst hc
    rw [hu, ht, Function.update_same]
    by_cases hm : c2 ∈ st.toomany
    · rw [if_pos hm]
      refine ⟨fun hnm => (hinv c2).1 ?_, (hinv c2).2⟩
      intro hm2
      apply hnm
      (repeat' split) <;> simp [Finset.mem_insert, hm2]
    · rw [if_neg hm]
      have hle : (st.col_uniq_vals c2).card ≤ ceil := (hinv c2).1 hm
      have hins : (insert val (st.col_uniq_vals c2)).card ≤ (st.col_uniq_vals c2).card + 1 :=
        Finset.card_insert_le _ _
      constructor
      · intro hnm
        by_cases hcard : ceil < (insert val (st.col_uniq_vals c2)).card
        · exfalso
          apply hnm
          rw [if_pos hcard]
          exact Finset.mem_insert_self _ _
        · omega
      · omega
  · rw [hu, ht, Function.update_noteq hc]
    refine ⟨fun hnm => (hinv c2).1 ?_, (hinv c2).2⟩
    intro hm2
    apply hnm
    (repeat' split) <;> simp [Finset.mem_insert, hm2]

/-! ## Column-loop and row-level lemmas -/

theorem colLoop_props (parse : String → Option ℚ) (ceil : ℕ) (colnames row : List String) :
    ∀ (cs : List String) (st st' : BigState),
      cs.foldlM (colLoopStep parse ceil colnames row) st = Except.ok st' →
      st'.n_rows = st.n_rows ∧ st'.label_counts = st.label_counts ∧
        st.toomany ⊆ st'.toomany ∧
        (∀ c2 ∈ st.toomany, st'.col_uniq_vals c2 = st.col_uniq_vals c2) ∧
        ((∀ c2, (c2 ∉ st.toomany → (st.col_uniq_vals c2).card ≤ ceil) ∧
            (st.col_uniq_vals c2).card ≤ ceil + 1) →
          ∀ c2, (c2 ∉ st'.toomany → (st'.col_uniq_vals c2).card ≤ ceil) ∧
            (st'.col_uniq_vals c2).card ≤ ceil + 1) := by
  intro cs
  induction cs with
  | nil =>
      intro st st' h
      replace h : Except.ok st = Except.ok st' := h
      cases h
      exact ⟨rfl, rfl, Finset.Subset.refl _, fun c2 _ => rfl, fun hi => hi⟩
  | cons c cs IH =>
      intro st st' h
      rw [List.foldlM_cons] at h
      cases hr : rowVal colnames row c with
      | none =>
          simp only [colLoopStep, hr] at h
          replace h : (Except.error "KeyError" : Except String BigState) = Except.ok st' := h
          exact Except.noConfusion h
      | some raw =>
          simp only [colLoopStep, hr] at h
          replace h : cs.foldlM (colLoopStep parse ceil colnames row)
              (updateCol parse ceil c raw st) = Except.ok st' := h
          obtain ⟨ih1, ih2, ih3, ih4, ih5⟩ := IH (updateCol parse ceil c raw st) st' h
          refine ⟨ih1.trans (updateCol_n_rows parse ceil c raw st),
            ih2.trans (updateCol_label parse ceil c raw st),
            (updateCol_toomany_mono parse ceil c raw st).trans ih3, ?_, ?_⟩
          · intro c2 hc2
            have hc2u : c2 ∈ (updateCol parse ceil c raw st).toomany :=
              updateCol_toomany_mono parse ceil c raw st hc2
            rw [ih4 c2 hc2u]
            exact updateCol_uniq_frozen parse ceil c raw c2 st hc2
          · intro hi
            exact ih5 (updateCol_card parse ceil c raw st hi)

theorem colLoop_proj (parse : String → Option ℚ) (ceil : ℕ) (colnames row : List String) :
    ∀ (cs : List String) (st st' : BigState),
      cs.Nodup →
      cs.foldlM (colLoopStep parse ceil colnames row) st = Except.ok st' →
      ∀ c : String,
        (c ∉ cs → projCol st' c = projCol st c) ∧
        (c ∈ cs → ∃ raw, rowVal colnames row c = some raw ∧
          projCol st' c = colStep parse ceil (projCol st c) raw) := by
  intro cs
  induction cs with
  | nil =>
      intro st st' _ h c
      replace h : Except.ok st = Except.ok st' := h
      cases h
      refine ⟨fun _ => rfl, fun hc => ?_⟩
      simp at hc
  | cons c0 cs IH =>
      intro st st' hnd h c
      rw [List.foldlM_cons] at h
      rw [List.nodup_cons] at hnd
      cases hr : rowVal colnames row c0 with
      | none =>
          simp only [colLoopStep, hr] at h
          replace h : (Except.error "KeyError" : Except String BigState) = Except.ok st' := h
          exact Except.noConfusion h
      | some raw =>
          simp only [colLoopStep, hr] at h
          replace h : cs.foldlM (colLoopStep parse ceil colnames row)
              (updateCol parse ceil c0 raw st) = Except.ok st' := h
          have IH2 := IH (updateCol parse ceil c0 raw st) st' hnd.2 h c
          constructor
          · intro hc
            rw [List.mem_cons] at hc
            push_neg at hc
            rw [(IH2.1 hc.2)]
            exact projCol_updateCol_other parse ceil c c0 raw st hc.1
          · intro hc
            rcases List.mem_cons.mp hc with rfl | hc2
            · refine ⟨raw, hr, ?_⟩
              rw [IH2.1 hnd.1]
              exact projCol_updateCol_self parse ceil c raw st
            · have hne : c ≠ c0 := by
                intro he
                subst he
                exact hnd.1 hc2
              obtain ⟨raw2, hr2, hp⟩ := IH2.2 hc2
              refine ⟨raw2, hr2, ?_⟩
              rw [hp, projCol_updateCol_other parse ceil c c0 raw st hne]

theorem processRow_ok (parse : String → Option ℚ) (colnames : List String) (y : String)
    (ceil : ℕ) (st : BigState) (row : List String) (st' : BigState)
    (h : processRow parse colnames y ceil st row = Except.ok st') :
    ∃ yval, rowVal colnames row y = some yval ∧
      colnames.foldlM (colLoopStep parse ceil colnames row)
        { st with
          n_rows := st.n_rows + 1
          label_counts :=
            if y ∈ st.toomany then st.label_counts
            else Function.update st.label_counts yval (st.label_counts yval + 1) } =
        Except.ok st' := by
  unfold processRow at h
  cases hr : rowVal colnames row y with
  | none =>
      rw [hr] at h
      exact Except.noConfusion h
  | some yval =>
      rw [hr] at h
      exact ⟨yval, rfl, h⟩

theorem processRow_props (parse : String → Option ℚ) (colnames : List String) (y : String)
    (ceil : ℕ) (st : BigState) (row : List String) (st' : BigState)
    (h : processRow parse colnames y ceil st row = Except.ok st') :
    st'.n_rows = st.n_rows + 1 ∧ st.toomany ⊆ st'.toomany ∧
      (∀ c2 ∈ st.toomany, st'.col_uniq_vals c2 = st.col_uniq_vals c2) ∧
      ((∀ c2, (c2 ∉ st.toomany → (st.col_uniq_vals c2).card ≤ ceil) ∧
          (st.col_uniq_vals c2).card ≤ ceil + 1) →
        ∀ c2, (c2 ∉ st'.toomany → (st'.col_uniq_vals c2).card ≤ ceil) ∧
          (st'.col_uniq_vals c2).card ≤ ceil + 1) ∧
      (∃ yval, rowVal colnames row y = some yval ∧
        (y ∉ st.toomany →
          st'.label_counts =
            Function.update st.label_counts yval (st.label_counts yval + 1)) ∧
        (y ∈ st.toomany → st'.label_counts = st.label_counts)) := by
  obtain ⟨yval, hy, hfold⟩ := processRow_ok parse colnames y ceil st row st' h
  obtain ⟨h1, h2, h3, h4, h5⟩ := colLoop_props parse ceil colnames row colnames _ st' hfold
  refine ⟨h1, h3, h4, h5, yval, hy, ?_, ?_⟩
  · intro hym
    rw [h2]
    simp only [if_neg hym]
  · intro hym
    rw [h2]
    simp only [if_pos hym]

theorem processRow_proj (parse : String → Option ℚ) (colnames : List String) (y : String)
    (ceil : ℕ) (st : BigState) (row : List String) (st' : BigState)
    (hnd : colnames.Nodup)
    (h : processRow parse colnames y ceil st row = Except.ok st') (c : String)
    (hc : c ∈ colnames) :
    ∃ raw, rowVal colnames row c = some raw ∧
      projCol st' c = colStep parse ceil (projCol st c) raw := by
  obtain ⟨yval, hy, hfold⟩ := processRow_ok parse colnames y ceil st row st' h
  obtain ⟨raw, hr, hp⟩ :=
    (colLoop_proj parse ceil colnames row colnames _ st' hnd hfold c).2 hc
  exact ⟨raw, hr, hp⟩

/-! ## Run-level lemmas -/

theorem runRowsFrom_proj (parse : String → Option ℚ) (colnames : List String) (y : String)
    (ceil : ℕ) (hnd : colnames.Nodup) :
    ∀ (rows : List (List String)) (st0 st : BigState),
      rows.foldlM (processRow parse colnames y ceil) st0 = Except.ok st →
      ∀ c ∈ colnames,
        projCol st c = colRunFrom parse ceil (projCol st0 c) (colStream colnames rows c) := by
  intro rows
  induction rows with
  | nil =>
      intro st0 st h c _
      replace h : Except.ok st0 = Except.ok st := h
      cases h
      rfl
  | cons r rows IH =>
      intro st0 st h c hc
      rw [List.foldlM_cons] at h
      cases hr : processRow parse colnames y ceil st0 r with
      | error e =>
          rw [hr] at h
          replace h : (Except.error e : Except String BigState) = Except.ok st := h
          exact Except.noConfusion h
      | ok st1 =>
          rw [hr] at h
          replace h : rows.foldlM (processRow parse colnames y ceil) st1 = Except.ok st := h
          obtain ⟨raw, hraw, hp⟩ := processRow_proj parse colnames y ceil st0 r st1 hnd hr c hc
          have ihc := IH st1 st h c hc
          rw [ihc, hp]
          unfold colStream colRunFrom
          rw [List.map_cons, List.foldl_cons, hraw]
          rfl

theorem runRowsFrom_props (parse : String → Option ℚ) (colnames : List String) (y : String)
    (ceil : ℕ) :
    ∀ (rows : List (List String)) (st0 st : BigState),
      rows.foldlM (processRow parse colnames y ceil) st0 = Except.ok st →
      st.n_rows = st0.n_rows + rows.length ∧
        st0.toomany ⊆ st.toomany ∧
        (∀ c2 ∈ st0.toomany, st.col_uniq_vals c2 = st0.col_uniq_vals c2) ∧
        ((∀ c2, (c2 ∉ st0.toomany → (st0.col_uniq_vals c2).card ≤ ceil) ∧
            (st0.col_uniq_vals c2).card ≤ ceil + 1) →
          ∀ c2, (c2 ∉ st.toomany → (st.col_uniq_vals c2).card ≤ ceil) ∧
            (st.col_uniq_vals c2).card ≤ ceil + 1) := by
  intro rows
  induction rows with
  | nil =>
      intro st0 st h
      replace h : Except.ok st0 = Except.ok st := h
      cases h
      exact ⟨rfl, Finset.Subset.refl _, fun c2 _ => rfl, fun hi => hi⟩
  | cons r rows IH =>
      intro st0 st h
      rw [List.foldlM_cons] at h
      cases hr : processRow parse colnames y ceil st0 r with
      | error e =>
          rw [hr] at h
          replace h : (Except.error e : Except String BigState) = Except.ok st := h
          exact Except.noConfusion h
      | ok st1 =>
          rw [hr] at h
          replace h : rows.foldlM (processRow parse colnames y ceil) st1 = Except.ok st := h
          obtain ⟨p1, p2, p3, p4, _⟩ := processRow_props parse colnames y ceil st0 r st1 hr
          obtain ⟨i1, i2, i3, i4⟩ := IH st1 st h
          refine ⟨?_, p2.trans i2, ?_, fun hi => i4 (p4 hi)⟩
          · rw [i1, p1, List.length_cons]
            omega
          · intro c2 hc2
            rw [i3 c2 (p2 hc2)]
            exact p3 c2 hc2

theorem runRowsFrom_label (parse : String → Option ℚ) (colnames : List String) (y : String)
    (ceil : ℕ) :
    ∀ (rows : List (List String)) (st0 st : BigState),
      rows.foldlM (processRow parse colnames y ceil) st0 = Except.ok st →
      (rows.filterMap (fun r => rowVal colnames r y)).length = rows.length ∧
        (y ∉ st.toomany → ∀ v,
          st.label_counts v =
            st0.label_counts v + (rows.filterMap (fun r => rowVal colnames r y)).count v) := by
  intro rows
  induction rows with
  | nil =>
      intro st0 st h
      replace h : Except.ok st0 = Except.ok st := h
      cases h
      exact ⟨rfl, fun _ v => by simp⟩
  | cons r rows IH =>
      intro st0 st h
      rw [List.foldlM_cons] at h
      cases hr : processRow parse colnames y ceil st0 r with
      | error e =>
          rw [hr] at h
          replace h : (Except.error e : Except String BigState) = Except.ok st := h
          exact Except.noConfusion h
      | ok st1 =>
          rw [hr] at h
          replace h : rows.foldlM (processRow parse colnames y ceil) st1 = Except.ok st := h
          obtain ⟨_, p2, _, _, yval, hy, hupd, _⟩ :=
            processRow_props parse colnames y ceil st0 r st1 hr
          obtain ⟨i1, i2⟩ := IH st1 st h
          obtain ⟨_, r2, _, _⟩ := runRowsFrom_props parse colnames y ceil rows st1 st h
          constructor
          · simp only [List.filterMap_cons, hy, List.length_cons, i1]
          · intro hym v
            have hym1 : y ∉ st1.toomany := fun hm => hym (r2 hm)
            have hym0 : y ∉ st0.toomany := fun hm => hym1 (p2 hm)
            rw [i2 hym v, hupd hym0]
            simp only [List.filterMap_cons, hy, Function.update_apply]
            by_cases hv : v = yval
            · subst hv
              rw [if_pos rfl, List.count_cons_self]
              omega
            · rw [if_neg hv, List.count_cons_of_ne hv]

theorem list_toFinset_sum_count (l : List String) :
    (∑ v ∈ l.toFinset, l.count v) = l.length := by
  simp

/-- Claim C5 (confirmed): the label distribution returned by
summarize_big_training_data either sums exactly to the processed row count
(over the labels that occur), or is reported as None (unavailable) when
the label column was marked too-many — never a partial distribution. -/
theorem C5_label_distribution (parse : String → Option ℚ) (colnames : List String)
    (y : String) (ceil : ℕ) (rows : List (List String)) (out : BigResult)
    (h : summarize_big_training_data parse colnames rows y ceil = Except.ok out) :
    out.label_counts = none ∨
      ∃ lc, out.label_counts = some lc ∧
        (∑ v ∈ (rows.filterMap (fun r => rowVal colnames r y)).toFinset, lc v) =
          out.n_rows := by
  unfold summarize_big_training_data at h
  cases hrun : runRows parse colnames y ceil rows with
  | error e =>
      rw [hrun] at h
      exact Except.noConfusion h
  | ok st =>
      rw [hrun] at h
      replace h : (if colnames ≠ [] ∧ st.n_rows = 0 then
            (Except.error "ZeroDivisionError" : Except String BigResult)
          else Except.ok
            ({ summary := colnames.map (fun c => bigColSummary ceil st c)
               n_rows := st.n_rows
               label_counts :=
                 if y ∈ st.toomany then none else some st.label_counts } : BigResult)) =
          Except.ok out := h
      by_cases hc : colnames ≠ [] ∧ st.n_rows = 0
      · rw [if_pos hc] at h
        exact Except.noConfusion h
      · rw [if_neg hc] at h
        cases h
        by_cases hym : y ∈ st.toomany
        · left
          simp [hym]
        · right
          refine ⟨st.label_counts, by simp [hym], ?_⟩
          unfold runRows at hrun
          obtain ⟨hlen, hcount⟩ :=
            runRowsFrom_label parse colnames y ceil rows initBigState st hrun
          obtain ⟨hn, _, _, _⟩ :=
            runRowsFrom_props parse colnames y ceil rows initBigState st hrun
          have hzero : initBigState.n_rows = 0 := rfl
          have hstep : ∀ v ∈ (rows.filterMap (fun r => rowVal colnames r y)).toFinset,
              st.label_counts v = (rows.filterMap (fun r => rowVal colnames r y)).count v := by
            intro v _
            rw [hcount hym v]
            simp [initBigState]
          rw [Finset.sum_congr rfl hstep, list_toFinset_sum_count, hlen]
          simp only []
          omega

/-- Claim C10 (confirmed): at any prefix of the stream every per-column
uniqueness set holds at most unique_ceiling + 1 values, and once a column
is in the too-many set its uniqueness set is never modified by any later
row (and it stays in the too-many set). -/
theorem C10_uniq_bound (parse : String → Option ℚ) (colnames : List String)
    (y : String) (ceil : ℕ) (rows : List (List String)) (k m : ℕ) (st st' : BigState)
    (hkm : k ≤ m)
    (hk : runRows parse colnames y ceil (rows.take k) = Except.ok st)
    (hm : runRows parse colnames y ceil (rows.take m) = Except.ok st') :
    (∀ c, (st.col_uniq_vals c).card ≤ ceil + 1) ∧
      ∀ c ∈ st.toomany,
        st'.col_uniq_vals c = st.col_uniq_vals c ∧ c ∈ st'.toomany := by
  unfold runRows at hk hm
  have hinit : ∀ c2, (c2 ∉ initBigState.toomany →
      (initBigState.col_uniq_vals c2).card ≤ ceil) ∧
      (initBigState.col_uniq_vals c2).card ≤ ceil + 1 := by
    intro c2
    simp [initBigState]
  obtain ⟨_, _, _, hcard⟩ :=
    runRowsFrom_props parse colnames y ceil (rows.take k) initBigState st hk
  have hbound := hcard hinit
  refine ⟨fun c => (hbound c).2, ?_⟩
  have hksum : k + (m - k) = m := Nat.add_sub_cancel' hkm
  have hdecomp : rows.take m = rows.take k ++ ((rows.drop k).take (m - k)) := by
    conv_lhs => rw [← hksum]
    rw [List.take_add]
  rw [hdecomp, List.foldlM_append, hk] at hm
  replace hm : ((rows.drop k).take (m - k)).foldlM (processRow parse colnames y ceil) st =
      Except.ok st' := hm
  obtain ⟨_, hmono, hfreeze, _⟩ :=
    runRowsFrom_props parse colnames y ceil ((rows.drop k).take (m - k)) st st' hm
  intro c hc
  exact ⟨hfreeze c hc, hmono hc⟩

/-- Default result used to name concrete states in witnesses. -/
def bigResultDefault : BigResult :=
  { summary := [], n_rows := 0, label_counts := none }

/-- Concrete rows for the C10 witness. -/
def c10Rows : List (List String) := [["a"], ["b"]]

/-- State after one row of the C10 witness stream. -/
def c10St : BigState :=
  (runRows (fun _ => none) ["x"] "x" 0 (c10Rows.take 1)).toOption.getD initBigState

/-- State after both rows of the C10 witness stream. -/
def c10St2 : BigState :=
  (runRows (fun _ => none) ["x"] "x" 0 (c10Rows.take 2)).toOption.getD initBigState

/-- Claim C10 witness: the theorem applied to a concrete two-row stream with
ceiling 0. -/
theorem C10_witness :
    (∀ c, (c10St.col_uniq_vals c).card ≤ 0 + 1) ∧
      ∀ c ∈ c10St.toomany,
        c10St2.col_uniq_vals c = c10St.col_uniq_vals c ∧ c ∈ c10St2.toomany :=
  C10_uniq_bound (fun _ => none) ["x"] "x" 0 c10Rows 1 2 c10St c10St2
    (by omega) rfl rfl

/-- Concrete stream for the C5 witness. -/
def c5Rows : List (List String) := [["u"], ["v"], ["u"]]

/-- Result of the C5 witness run. -/
def c5Out : BigResult :=
  (summarize_big_training_data (fun _ => none) ["x"] c5Rows "x" 1000).toOption.getD
    bigResultDefault

/-- Claim C5 witness: the theorem applied to a concrete three-row stream. -/
theorem C5_witness :
    c5Out.label_counts = none ∨
      ∃ lc, c5Out.label_counts = some lc ∧
        (∑ v ∈ (c5Rows.filterMap (fun r => rowVal ["x"] r "x")).toFinset, lc v) =
          c5Out.n_rows :=
  C5_label_distribution (fun _ => none) ["x"] "x" 1000 c5Rows c5Out rfl

/-! ## Characterisation of the too-many sentinel -/

theorem summarize_big_ok (parse : String → Option ℚ) (colnames : List String)
    (rows : List (List String)) (y : String) (ceil : ℕ) (out : BigResult)
    (h : summarize_big_training_data parse colnames rows y ceil = Except.ok out) :
    ∃ st, runRows parse colnames y ceil rows = Except.ok st ∧
      ¬(colnames ≠ [] ∧ st.n_rows = 0) ∧
      out = { summary := colnames.map (fun c => bigColSummary ceil st c)
              n_rows := st.n_rows
              label_counts := if y ∈ st.toomany then none else some st.label_counts } := by
  unfold summarize_big_training_data at h
  cases hrun : runRows parse colnames y ceil rows with
  | error e =>
      rw [hrun] at h
      exact Except.noConfusion h
  | ok st =>
      rw [hrun] at h
      replace h : (if colnames ≠ [] ∧ st.n_rows = 0 then
            (Except.error "ZeroDivisionError" : Except String BigResult)
          else Except.ok
            ({ summary := colnames.map (fun c => bigColSummary ceil st c)
               n_rows := st.n_rows
               label_counts :=
                 if y ∈ st.toomany then none else some st.label_counts } : BigResult)) =
          Except.ok out := h
      by_cases hc : colnames ≠ [] ∧ st.n_rows = 0
      · rw [if_pos hc] at h
        exact Except.noConfusion h
      · rw [if_neg hc] at h
        cases h
        exact ⟨st, rfl, hc, rfl⟩

theorem colStep_frozen (parse : String → Option ℚ) (ceil : ℕ) (a : ColAcc) (raw : String)
    (h : a.frozen = true) :
    (colStep parse ceil a raw).uniq = a.uniq ∧ (colStep parse ceil a raw).frozen = true := by
  simp only [colStep]
  split <;> simp [h]

theorem colRunFrom_frozen (parse : String → Option ℚ) (ceil : ℕ) :
    ∀ (vals : List String) (a : ColAcc), a.frozen = true →
      (colRunFrom parse ceil a vals).uniq = a.uniq ∧
        (colRunFrom parse ceil a vals).frozen = true := by
  intro vals
  induction vals with
  | nil =>
      intro a h
      exact ⟨rfl, h⟩
  | cons v vs IH =>
      intro a h
      obtain ⟨h1, h2⟩ := colStep_frozen parse ceil a v h
      unfold colRunFrom at IH ⊢
      rw [List.foldl_cons]
      obtain ⟨i1, i2⟩ := IH (colStep parse ceil a v) h2
      exact ⟨i1.trans h1, i2⟩

theorem colTrackedAux_superset (parse : String → Option ℚ) :
    ∀ (vals : List String) (b : Bool) (S : Finset Val),
      S ⊆ colTrackedAux parse b S vals := by
  intro vals
  induction vals with
  | nil =>
      intro b S
      exact Finset.Subset.refl S
  | cons v vs IH =>
      intro b S
      rcases hX : (if pyStrip v ≠ "" ∧ b = true then some (parse (pyStrip v)) else none)
        with _ | ⟨_ | q⟩ <;>
        simp only [colTrackedAux, hX] <;>
        exact (Finset.subset_insert _ _).trans (IH _ _)

theorem colRun_branch_cont (parse : String → Option ℚ) (ceil : ℕ) (v : String)
    (vs : List String) (a a1 : ColAcc) (val : Val)
    (IH : ∀ a2 : ColAcc, a2.frozen = false → a2.uniq.card ≤ ceil →
      ((colRunFrom parse ceil a2 vs).frozen = false ∧
        (colRunFrom parse ceil a2 vs).uniq = colTrackedAux parse a2.numeric a2.uniq vs ∧
        (colTrackedAux parse a2.numeric a2.uniq vs).card ≤ ceil) ∨
      ((colRunFrom parse ceil a2 vs).frozen = true ∧
        ceil < (colTrackedAux parse a2.numeric a2.uniq vs).card))
    (_hc : a.uniq.card ≤ ceil)
    (ha1u : a1.uniq = insert val a.uniq)
    (ha1f : a1.frozen = decide (ceil < (insert val a.uniq).card))
    (htr : colTrackedAux parse a.numeric a.uniq (v :: vs) =
      colTrackedAux parse a1.numeric a1.uniq vs)
    (hrun : colRunFrom parse ceil a (v :: vs) = colRunFrom parse ceil a1 vs) :
    ((colRunFrom parse ceil a (v :: vs)).frozen = false ∧
      (colRunFrom parse ceil a (v :: vs)).uniq =
        colTrackedAux parse a.numeric a.uniq (v :: vs) ∧
      (colTrackedAux parse a.numeric a.uniq (v :: vs)).card ≤ ceil) ∨
    ((colRunFrom parse ceil a (v :: vs)).frozen = true ∧
      ceil < (colTrackedAux parse a.numeric a.uniq (v :: vs)).card) := by
  by_cases hcard : ceil < (insert val a.uniq).card
  · right
    have hf : a1.frozen = true := by
      rw [ha1f]
      simp [hcard]
    obtain ⟨_, hfr⟩ := colRunFrom_frozen parse ceil vs a1 hf
    constructor
    · rw [hrun]
      exact hfr
    · rw [htr]
      have hle : (insert val a.uniq).card ≤
          (colTrackedAux parse a1.numeric a1.uniq vs).card := by
        rw [← ha1u]
        exact Finset.card_le_card (colTrackedAux_superset parse vs a1.numeric a1.uniq)
      omega
  · have hf : a1.frozen = false := by
      rw [ha1f]
      simp [hcard]
    have hc1 : a1.uniq.card ≤ ceil := by
      rw [ha1u]
      omega
    rcases IH a1 hf hc1 with ⟨f1, f2, f3⟩ | ⟨f1, f2⟩
    · left
      rw [hrun, htr]
      exact ⟨f1, f2, f3⟩
    · right
      rw [hrun, htr]
      exact ⟨f1, f2⟩

theorem colRunFrom_unfrozen (parse : String → Option ℚ) (ceil : ℕ) :
    ∀ (vals : List String) (a : ColAcc), a.frozen = false → a.uniq.card ≤ ceil →
      ((colRunFrom parse ceil a vals).frozen = false ∧
        (colRunFrom parse ceil a vals).uniq = colTrackedAux parse a.numeric a.uniq vals ∧
        (colTrackedAux parse a.numeric a.uniq vals).card ≤ ceil) ∨
      ((colRunFrom parse ceil a vals).frozen = true ∧
        ceil < (colTrackedAux parse a.numeric a.uniq vals).card) := by
  intro vals
  induction vals with
  | nil =>
      intro a h hc
      left
      exact ⟨h, rfl, hc⟩
  | cons v vs IH =>
      intro a h hc
      rcases hX : (if pyStrip v ≠ "" ∧ a.numeric = true then some (parse (pyStrip v)) else none)
        with _ | ⟨_ | q⟩
      · have hstep : colStep parse ceil a v =
            { nulls := if pyStrip v = "" then a.nulls + 1 else a.nulls,
              mn := a.mn, mx := a.mx, numeric := a.numeric,
              uniq := insert (Val.str (pyStrip v)) a.uniq,
              frozen := decide (ceil < (insert (Val.str (pyStrip v)) a.uniq).card) } := by
          simp only [colStep, hX, h]
          simp
        refine colRun_branch_cont parse ceil v vs a (colStep parse ceil a v)
          (Val.str (pyStrip v)) IH hc ?_ ?_ ?_ rfl
        · rw [hstep]
        · rw [hstep]
        · simp only [colTrackedAux, hX, hstep]
      · have hstep : colStep parse ceil a v =
            { nulls := if pyStrip v = "" then a.nulls + 1 else a.nulls,
              mn := a.mn, mx := a.mx, numeric := false,
              uniq := insert (Val.str (pyStrip v)) a.uniq,
              frozen := decide (ceil < (insert (Val.str (pyStrip v)) a.uniq).card) } := by
          simp only [colStep, hX, h]
          simp
        refine colRun_branch_cont parse ceil v vs a (colStep parse ceil a v)
          (Val.str (pyStrip v)) IH hc ?_ ?_ ?_ rfl
        · rw [hstep]
        · rw [hstep]
        · simp only [colTrackedAux, hX, hstep]
      · have hstep : colStep parse ceil a v =
            { nulls := if pyStrip v = "" then a.nulls + 1 else a.nulls,
              mn := optMin a.mn q, mx := optMax a.mx q, numeric := a.numeric,
              uniq := insert (Val.num q) a.uniq,
              frozen := decide (ceil < (insert (Val.num q) a.uniq).card) } := by
          simp only [colStep, hX, h]
          simp
        refine colRun_branch_cont parse ceil v vs a (colStep parse ceil a v)
          (Val.num q) IH hc ?_ ?_ ?_ rfl
        · rw [hstep]
        · rw [hstep]
        · simp only [colTrackedAux, hX, hstep]

theorem projCol_initBigState (c : String) : projCol initBigState c = initColAcc := by
  simp [projCol, initBigState, initColAcc]

theorem bigColSummary_n_uniq (ceil : ℕ) (st : BigState) (c : String) :
    (bigColSummary ceil st c).n_uniq =
      (if (projCol st c).frozen = true then UniqCount.toomany ceil
        else UniqCount.exact (projCol st c).uniq.card) := by
  unfold bigColSummary projCol
  by_cases hm : c ∈ st.toomany <;> simp [hm]

/-- Claim C7 (corrected), counterexample: the stream tracks trimmed (and,
when numeric, parsed) values rather than raw ones — the two raw values
"a" and " a" are distinct, yet the reported unique count is the exact
count 1, not 2. -/
theorem C7_counterexample :
    (summarize_big_training_data (fun _ => none) ["x"] [["a"], [" a"]] "x" 1000).toOption.map
        (fun r => r.summary.map (fun s => s.n_uniq)) =
      some [UniqCount.exact 1] ∧
      (["a", " a"] : List String).toFinset.card = 2 := by
  constructor
  · rfl
  · decide

/-- The reported unique count of one column, characterised against the full
tracked-value set. -/
theorem stream_n_uniq_char (parse : String → Option ℚ) (colnames : List String)
    (y : String) (ceil : ℕ) (rows : List (List String)) (st : BigState)
    (hnd : colnames.Nodup)
    (hrun : runRows parse colnames y ceil rows = Except.ok st)
    (c : String) (hc : c ∈ colnames) :
    (bigColSummary ceil st c).n_uniq =
      (if (colTracked parse (colStream colnames rows c)).card ≤ ceil
        then UniqCount.exact (colTracked parse (colStream colnames rows c)).card
        else UniqCount.toomany ceil) := by
  rw [bigColSummary_n_uniq]
  unfold runRows at hrun
  have hproj := runRowsFrom_proj parse colnames y ceil hnd rows initBigState st hrun c hc
  rw [projCol_initBigState] at hproj
  have hinit1 : (initColAcc).frozen = false := rfl
  have hinit2 : (initColAcc).uniq.card ≤ ceil := by
    simp [initColAcc]
  have hdisj := colRunFrom_unfrozen parse ceil (colStream colnames rows c) initColAcc
    hinit1 hinit2
  have htr : colTrackedAux parse initColAcc.numeric initColAcc.uniq
      (colStream colnames rows c) = colTracked parse (colStream colnames rows c) := rfl
  rw [htr] at hdisj
  rcases hdisj with ⟨f1, f2, f3⟩ | ⟨f1, f2⟩
  · rw [hproj, f1, f2]
    simp [f3]
  · rw [hproj, f1]
    have hgt : ¬ (colTracked parse (colStream colnames rows c)).card ≤ ceil := by omega
    simp [hgt]

/-- Claim C7 (amended): per column, the stream tracks the set of distinct
values after trimming and numeric coercion (colTracked: the parsed float
while the column's numeric flag is up, the trimmed string otherwise); the
reported unique count is the exact size of that set when it does not
exceed the ceiling and the sentinel "> ceiling" as soon as it does — in
particular with unique_ceiling = 2 and column values a, b, c, d the
report is the sentinel, not 4. -/
theorem C7_amended (parse : String → Option ℚ) (colnames : List String) (y : String)
    (ceil : ℕ) (rows : List (List String)) (out : BigResult)
    (hnd : colnames.Nodup)
    (h : summarize_big_training_data parse colnames rows y ceil = Except.ok out) :
    ∀ cs ∈ out.summary,
      cs.n_uniq =
        (if (colTracked parse (colStream colnames rows cs.attr)).card ≤ ceil
          then UniqCount.exact (colTracked parse (colStream colnames rows cs.attr)).card
          else UniqCount.toomany ceil) := by
  obtain ⟨st, hrun, _, hout⟩ := summarize_big_ok parse colnames rows y ceil out h
  subst hout
  intro cs hcs
  simp only [List.mem_map] at hcs
  obtain ⟨c, hc, rfl⟩ := hcs
  have hattr : (bigColSummary ceil st c).attr = c := rfl
  rw [hattr]
  exact stream_n_uniq_char parse colnames y ceil rows st hnd hrun c hc

/-- Concrete stream for the C7 witness (the spec scenario). -/
def c7Rows : List (List String) := [["a"], ["b"], ["c"], ["d"]]

/-- Result of the C7 witness run (ceiling 2). -/
def c7Out : BigResult :=
  (summarize_big_training_data (fun _ => none) ["x"] c7Rows "x" 2).toOption.getD
    bigResultDefault

/-- The state reached by the C7 witness run. -/
def c7St : BigState :=
  (runRows (fun _ => none) ["x"] "x" 2 c7Rows).toOption.getD initBigState

/-- Claim C7 witness: the amended theorem applied to the scenario with
unique_ceiling = 2 and column values a, b, c, d. -/
theorem C7_witness :
    (bigColSummary 2 c7St "x").n_uniq =
      (if (colTracked (fun _ => none)
            (colStream ["x"] c7Rows (bigColSummary 2 c7St "x").attr)).card ≤ 2
        then UniqCount.exact (colTracked (fun _ => none)
            (colStream ["x"] c7Rows (bigColSummary 2 c7St "x").attr)).card
        else UniqCount.toomany 2) :=
  C7_amended (fun _ => none) ["x"] "x" 2 c7Rows c7Out (by decide) rfl
    (bigColSummary 2 c7St "x")
    (by
      have he : c7Out.summary = [bigColSummary 2 c7St "x"] := rfl
      rw [he]
      exact List.mem_singleton_self _)

/-! ## Memory/stream per-column correspondence -/

theorem colStep_nulls (parse : String → Option ℚ) (ceil : ℕ) (a : ColAcc) (v : String) :
    (colStep parse ceil a v).nulls = (if pyStrip v = "" then a.nulls + 1 else a.nulls) := by
  simp only [colStep]
  split <;> rfl

theorem colRunFrom_nulls (parse : String → Option ℚ) (ceil : ℕ) :
    ∀ (vals : List String) (a : ColAcc),
      (colRunFrom parse ceil a vals).nulls =
        a.nulls + (vals.filter (fun v => pyStrip v = "")).length := by
  intro vals
  induction vals with
  | nil =>
      intro a
      simp [colRunFrom]
  | cons v vs IH =>
      intro a
      unfold colRunFrom at IH ⊢
      rw [List.foldl_cons, IH, colStep_nulls]
      by_cases hv : pyStrip v = ""
      · simp [hv, List.filter_cons]
        omega
      · simp [hv, List.filter_cons]

theorem corr_null_count (parse : String → Option ℚ) :
    ∀ (cells : List CellVal) (vals : List String),
      List.Forall₂ (CellCorr parse) cells vals →
      (cells.filter (fun v => isNullOrBlank v)).length =
        (vals.filter (fun v => pyStrip v = "")).length := by
  intro cells vals h
  induction h with
  | nil => rfl
  | cons hcv hrest IH =>
      rename_i cell s cells2 vals2
      cases hcv with
      | null s h0 =>
          have e1 : isNullOrBlank CellVal.null = true := rfl
          have e2 : decide (pyStrip s = "") = true := by simp [h0]
          simp [List.filter_cons, e1, e2, IH]
      | num q s h1 h2 =>
          have e1 : isNullOrBlank (CellVal.num q) = false := rfl
          have e2 : decide (pyStrip s = "") = false := by simp [h1]
          simp [List.filter_cons, e1, e2, IH]
      | str t s h1 h2 h3 =>
          have e1 : isNullOrBlank (CellVal.str t) = false := by
            simp [isNullOrBlank, h2]
          have e2 : decide (pyStrip s = "") = false := by
            rw [h1]
            simp [h2]
          simp [List.filter_cons, e1, e2, IH]

theorem colStep_numeric_false (parse : String → Option ℚ) (ceil : ℕ) (a : ColAcc)
    (v : String) (h : a.numeric = false) :
    (colStep parse ceil a v).numeric = false ∧ (colStep parse ceil a v).mn = a.mn ∧
      (colStep parse ceil a v).mx = a.mx := by
  have hX : (if pyStrip v ≠ "" ∧ a.numeric = true then some (parse (pyStrip v)) else none)
      = none := by
    simp [h]
  simp [colStep, hX, h]

theorem colRunFrom_numeric_false (parse : String → Option ℚ) (ceil : ℕ) :
    ∀ (vals : List String) (a : ColAcc), a.numeric = false →
      (colRunFrom parse ceil a vals).numeric = false := by
  intro vals
  induction vals with
  | nil =>
      intro a h
      exact h
  | cons v vs IH =>
      intro a h
      unfold colRunFrom at IH ⊢
      rw [List.foldl_cons]
      exact IH _ (colStep_numeric_false parse ceil a v h).1

theorem corr_minmax (parse : String → Option ℚ) (ceil : ℕ) :
    ∀ (cells : List CellVal) (vals : List String),
      List.Forall₂ (CellCorr parse) cells vals →
      ∀ a : ColAcc, a.numeric = true →
        getMinMaxAux parse a.mn a.mx cells =
          (if (colRunFrom parse ceil a vals).numeric = true
            then ((colRunFrom parse ceil a vals).mn, (colRunFrom parse ceil a vals).mx)
            else (none, none)) := by
  intro cells vals h
  induction h with
  | nil =>
      intro a hn
      simp [colRunFrom, getMinMaxAux, hn]
  | cons hcv hrest IH =>
      rename_i cell s cells2 vals2
      intro a hn
      cases hcv with
      | null s h0 =>
          have hX : (if pyStrip s ≠ "" ∧ a.numeric = true
              then some (parse (pyStrip s)) else none) = none := by
            simp [h0]
          have hstep : (colStep parse ceil a s).mn = a.mn ∧
              (colStep parse ceil a s).mx = a.mx ∧
              (colStep parse ceil a s).numeric = a.numeric := by
            simp [colStep, hX]
          unfold colRunFrom
          rw [List.foldl_cons]
          have := IH (colStep parse ceil a s) (hstep.2.2.trans hn)
          rw [hstep.1, hstep.2.1] at this
          simpa [getMinMaxAux, isNullOrBlank] using this
      | num q s h1 h2 =>
          have hX : (if pyStrip s ≠ "" ∧ a.numeric = true
              then some (parse (pyStrip s)) else none) = some (some q) := by
            rw [if_pos ⟨h1, hn⟩, h2]
          have hstep : (colStep parse ceil a s).mn = optMin a.mn q ∧
              (colStep parse ceil a s).mx = optMax a.mx q ∧
              (colStep parse ceil a s).numeric = a.numeric := by
            simp [colStep, hX]
          unfold colRunFrom
          rw [List.foldl_cons]
          have := IH (colStep parse ceil a s) (hstep.2.2.trans hn)
          rw [hstep.1, hstep.2.1] at this
          have hgm : getMinMaxAux parse a.mn a.mx (CellVal.num q :: cells2) =
              getMinMaxAux parse (optMin a.mn q) (optMax a.mx q) cells2 := by
            simp [getMinMaxAux, isNullOrBlank, floatOfCell]
          rw [hgm]
          exact this
      | str t s h1 h2 h3 =>
          have hX : (if pyStrip s ≠ "" ∧ a.numeric = true
              then some (parse (pyStrip s)) else none) = some none := by
            rw [if_pos ⟨by rw [h1]; exact h2, hn⟩, h1, h3]
          have hstep : (colStep parse ceil a s).numeric = false := by
            simp [colStep, hX]
          have hfin : (colRunFrom parse ceil (colStep parse ceil a s) vals2).numeric
              = false := colRunFrom_numeric_false parse ceil vals2 _ hstep
          unfold colRunFrom
          rw [List.foldl_cons]
          have hgm : getMinMaxAux parse a.mn a.mx (CellVal.str t :: cells2) =
              (none, none) := by
            simp [getMinMaxAux, isNullOrBlank, floatOfCell, h2, h3]
          rw [hgm]
          unfold colRunFrom at hfin
          rw [hfin]
          simp

theorem noMixed_cons (parse : String → Option ℚ) (v : String) (rest : List String) :
    NoMixed parse (v :: rest) = true ↔
      ((parseTrips parse v = true → ∀ w ∈ rest, parseHits parse w = false) ∧
        NoMixed parse rest = true) := by
  simp only [NoMixed, Bool.and_eq_true, Bool.or_eq_true, Bool.not_eq_true', List.all_eq_true]
  constructor
  · rintro ⟨h1, h2⟩
    refine ⟨?_, h2⟩
    intro ht w hw
    rcases h1 with h1 | h1
    · rw [ht] at h1
      exact absurd h1 (by decide)
    · exact h1 w hw
  · rintro ⟨h1, h2⟩
    refine ⟨?_, h2⟩
    by_cases ht : parseTrips parse v = true
    · right
      exact h1 ht
    · left
      revert ht
      cases parseTrips parse v <;> simp

theorem tracked_eq_streamVals (parse : String → Option ℚ) :
    ∀ (vals : List String) (b : Bool) (S : Finset Val),
      (b = false → ∀ w ∈ vals, parseHits parse w = false) →
      NoMixed parse vals = true →
      colTrackedAux parse b S vals = S ∪ (vals.map (streamVal parse)).toFinset := by
  intro vals
  induction vals with
  | nil =>
      intro b S _ _
      simp [colTrackedAux]
  | cons v vs IH =>
      intro b S hb hnm
      rw [noMixed_cons] at hnm
      obtain ⟨hclause, hrest⟩ := hnm
      by_cases hvempty : pyStrip v = ""
      · have hX : (if pyStrip v ≠ "" ∧ b = true then some (parse (pyStrip v)) else none)
            = none := by simp [hvempty]
        have hsv : streamVal parse v = Val.str "" := by simp [streamVal, hvempty]
        have hX2 : (if ("" : String) ≠ "" ∧ b = true then some (parse "") else none)
            = none := by simp
        simp only [colTrackedAux, hvempty, hX2]
        rw [IH b (insert (Val.str "") S)
          (fun hbf w hw => hb hbf w (List.mem_cons_of_mem v hw)) hrest]
        rw [List.map_cons, hsv, List.toFinset_cons, Finset.insert_union,
          Finset.union_insert]
      · by_cases hbt : b = true
        · cases hp : parse (pyStrip v) with
          | some q =>
              have hX : (if pyStrip v ≠ "" ∧ b = true
                  then some (parse (pyStrip v)) else none) = some (some q) := by
                rw [if_pos ⟨hvempty, hbt⟩, hp]
              have hsv : streamVal parse v = Val.num q := by
                simp [streamVal, hvempty, hp]
              simp only [colTrackedAux, hX]
              rw [IH b (insert (Val.num q) S) ?_ hrest]
              · rw [List.map_cons, hsv, List.toFinset_cons, Finset.insert_union,
                  Finset.union_insert]
              · intro hbf
                rw [hbt] at hbf
                exact absurd hbf (by decide)
          | none =>
              have htrips : parseTrips parse v = true := by
                simp [parseTrips, hvempty, hp]
              have hX : (if pyStrip v ≠ "" ∧ b = true
                  then some (parse (pyStrip v)) else none) = some none := by
                rw [if_pos ⟨hvempty, hbt⟩, hp]
              have hsv : streamVal parse v = Val.str (pyStrip v) := by
                simp [streamVal, hvempty, hp]
              simp only [colTrackedAux, hX]
              rw [IH false (insert (Val.str (pyStrip v)) S)
                (fun _ w hw => hclause htrips w hw) hrest]
              rw [List.map_cons, hsv, List.toFinset_cons, Finset.insert_union,
                Finset.union_insert]
        · have hbf : b = false := by
            revert hbt
            cases b <;> simp
          have hX : (if pyStrip v ≠ "" ∧ b = true
              then some (parse (pyStrip v)) else none) = none := by
            simp [hbt]
          have hp : parse (pyStrip v) = none := by
            have hh := hb hbf v (List.mem_cons_self v vs)
            simp [parseHits, hvempty] at hh
            exact hh
          have hsv : streamVal parse v = Val.str (pyStrip v) := by
            simp [streamVal, hvempty, hp]
          simp only [colTrackedAux, hX]
          rw [IH b (insert (Val.str (pyStrip v)) S)
            (fun hbf2 w hw => hb hbf2 w (List.mem_cons_of_mem v hw)) hrest]
          rw [List.map_cons, hsv, List.toFinset_cons, Finset.insert_union,
            Finset.union_insert]

theorem corr_streamVal (parse : String → Option ℚ) :
    ∀ (cells : List CellVal) (vals : List String),
      List.Forall₂ (CellCorr parse) cells vals →
      vals.map (streamVal parse) = cells.map valOf := by
  intro cells vals h
  induction h with
  | nil => rfl
  | cons hcv hrest IH =>
      rename_i cell s cells2 vals2
      rw [List.map_cons, List.map_cons, IH]
      congr 1
      cases hcv with
      | null s h0 => simp [streamVal, h0, valOf]
      | num q s h1 h2 => simp [streamVal, h1, h2, valOf]
      | str t s h1 h2 h3 =>
          rw [streamVal, h1]
          simp [h2, h3, valOf]

theorem corr_no_blank_str (parse : String → Option ℚ) :
    ∀ (cells : List CellVal) (vals : List String),
      List.Forall₂ (CellCorr parse) cells vals →
      ∀ v ∈ cells, v ≠ CellVal.str "" := by
  intro cells vals h
  induction h with
  | nil =>
      intro v hv
      simp at hv
  | cons hcv hrest IH =>
      rename_i cell s cells2 vals2
      intro v hv
      rcases List.mem_cons.mp hv with rfl | hv2
      · cases hcv with
        | null s h0 => simp
        | num q s h1 h2 => simp
        | str t s h1 h2 h3 =>
            intro he
            injection he with he2
            exact h2 he2
      · exact IH v hv2

theorem isNullOrBlank_iff_null (v : CellVal) (hne : v ≠ CellVal.str "") :
    isNullOrBlank v = true ↔ v = CellVal.null := by
  cases v with
  | null => simp [isNullOrBlank]
  | num q => simp [isNullOrBlank]
  | str t =>
      have ht : t ≠ "" := fun h => hne (by rw [h])
      simp [isNullOrBlank, ht]

theorem getUniq_eq_card (cells : List CellVal) (hne : ∀ v ∈ cells, v ≠ CellVal.str "") :
    getUniq cells = ((cells.map valOf).toFinset).card := by
  classical
  have hsne : ∀ v ∈ cells.toFinset, v ≠ CellVal.str "" := by
    intro v hv
    exact hne v (List.mem_toFinset.mp hv)
  have hmap : (cells.map valOf).toFinset = cells.toFinset.image valOf := by
    apply Finset.ext
    intro x
    rw [List.mem_toFinset, Finset.mem_image, List.mem_map]
    constructor
    · rintro ⟨v, hv, rfl⟩
      exact ⟨v, List.mem_toFinset.mpr hv, rfl⟩
    · rintro ⟨v, hv, rfl⟩
      exact ⟨v, List.mem_toFinset.mp hv, rfl⟩
  by_cases hnull : CellVal.null ∈ cells.toFinset
  · have herase : insert CellVal.null (cells.toFinset.erase CellVal.null) = cells.toFinset :=
      Finset.insert_erase hnull
    have hfe : cells.toFinset.filter (fun v => ¬ (isNullOrBlank v = true)) =
        cells.toFinset.erase CellVal.null := by
      ext v
      rw [Finset.mem_filter, Finset.mem_erase]
      constructor
      · rintro ⟨hv, hnb⟩
        refine ⟨?_, hv⟩
        intro he
        apply hnb
        rw [(isNullOrBlank_iff_null v (hsne v hv))]
        exact he
      · rintro ⟨hv1, hv2⟩
        refine ⟨hv2, ?_⟩
        rw [(isNullOrBlank_iff_null v (hsne v hv2))]
        exact hv1
    have hindi : (if ∃ v ∈ cells.toFinset, isNullOrBlank v = true then 1 else 0) = 1 :=
      if_pos ⟨CellVal.null, hnull, rfl⟩
    have hnotmem : (Val.str "") ∉ (cells.toFinset.erase CellVal.null).image valOf := by
      intro hmem
      rw [Finset.mem_image] at hmem
      obtain ⟨v, hv, hvof⟩ := hmem
      rw [Finset.mem_erase] at hv
      cases v with
      | null => exact hv.1 rfl
      | num q => exact Val.noConfusion hvof
      | str t =>
          injection hvof with he
          exact hsne _ hv.2 (by rw [he])
    have hinj : Set.InjOn valOf (cells.toFinset.erase CellVal.null) := by
      intro a ha b hb hab
      rw [Finset.coe_erase, Set.mem_diff] at ha hb
      have ha2 := hsne a ha.1
      have hb2 := hsne b hb.1
      cases a <;> cases b <;> simp_all [valOf]
    have himg : (cells.map valOf).toFinset =
        insert (Val.str "") ((cells.toFinset.erase CellVal.null).image valOf) := by
      rw [hmap]
      conv_lhs => rw [← herase]
      rw [Finset.image_insert]
      rfl
    rw [getUniq, hfe, hindi, himg,
      Finset.card_insert_of_not_mem hnotmem,
      Finset.card_image_of_injOn hinj]
  · have hfe : cells.toFinset.filter (fun v => ¬ (isNullOrBlank v = true)) =
        cells.toFinset := by
      apply Finset.filter_true_of_mem
      intro v hv
      intro he
      apply hnull
      rw [← (isNullOrBlank_iff_null v (hsne v hv)).mp he]
      exact hv
    have hindi : (if ∃ v ∈ cells.toFinset, isNullOrBlank v = true then 1 else 0) = 0 := by
      rw [if_neg]
      rintro ⟨v, hv, hb⟩
      apply hnull
      rw [← (isNullOrBlank_iff_null v (hsne v hv)).mp hb]
      exact hv
    have hinj : Set.InjOn valOf cells.toFinset := by
      intro a ha b hb hab
      rw [Finset.mem_coe] at ha hb
      have ha2 := hsne a ha
      have hb2 := hsne b hb
      have ha3 : a ≠ CellVal.null := fun he => hnull (he ▸ ha)
      have hb3 : b ≠ CellVal.null := fun he => hnull (he ▸ hb)
      cases a <;> cases b <;> simp_all [valOf]
    rw [getUniq, hfe, hindi, hmap, Finset.card_image_of_injOn hinj]
    omega

theorem get_map_general {α β : Type} (f : α → β) (l : List α) (k : ℕ)
    (hk2 : k < (l.map f).length) (hk : k < l.length) :
    (l.map f).get ⟨k, hk2⟩ = f (l.get ⟨k, hk⟩) := by
  simp [List.get_eq_getElem, List.getElem_map]

theorem corr_uniq (parse : String → Option ℚ) (cells : List CellVal) (vals : List String)
    (hcorr : List.Forall₂ (CellCorr parse) cells vals)
    (hnm : NoMixed parse vals = true) :
    colTracked parse vals = (cells.map valOf).toFinset ∧
      (colTracked parse vals).card = getUniq cells := by
  have h1 : colTracked parse vals = ∅ ∪ (vals.map (streamVal parse)).toFinset :=
    tracked_eq_streamVals parse vals true ∅ (fun h => absurd h (by decide)) hnm
  rw [Finset.empty_union, corr_streamVal parse cells vals hcorr] at h1
  refine ⟨h1, ?_⟩
  rw [h1, getUniq_eq_card cells (corr_no_blank_str parse cells vals hcorr)]

/-- Concrete parser for the C2 witness. -/
def c2Parse : String → Option ℚ := fun t => if t = "1" then some 1 else none

/-- Concrete one-column frame for the C2 witness. -/
def c2Df : DataFrame := [("x", [CellVal.num 1])]

/-- Memory-side result of the C2 witness run. -/
def c2Mout : MemResult :=
  (summarize_training_data c2Parse c2Df "x").toOption.getD
    { summary := [], n_rows := 0, label_counts := fun _ => 0 }

/-- Stream-side result of the C2 witness run. -/
def c2Bout : BigResult :=
  (summarize_big_training_data c2Parse ["x"] [["1"]] "x" 1000).toOption.getD
    bigResultDefault

/-- Claim C2 (corrected), counterexample: the same logical column — values
1, "a", 1 — presented in memory and as the CSV fields "1", "a", "1"
(a valid correspondence, as the conjuncts verify).  The in-memory
summarizer reports 2 unique values ({1, "a"}), the streaming summarizer
reports 3: it stored the float 1.0 for the first "1" (while the column
still counted as numeric) but the string "1" for the third (after "a"
cleared the numeric flag). -/
theorem C2_counterexample :
    (summarize_training_data (fun t => if t = "1" then some 1 else none)
        [("x", [CellVal.num 1, CellVal.str "a", CellVal.num 1])] "x").toOption.map
        (fun r => r.summary.map (fun cs => cs.n_uniq)) = some [2] ∧
      (summarize_big_training_data (fun t => if t = "1" then some 1 else none)
        ["x"] [["1"], ["a"], ["1"]] "x" 1000).toOption.map
        (fun r => r.summary.map (fun cs => cs.n_uniq)) = some [UniqCount.exact 3] ∧
      List.Forall₂ (CellCorr (fun t => if t = "1" then some 1 else none))
        [CellVal.num 1, CellVal.str "a", CellVal.num 1] ["1", "a", "1"] := by
  refine ⟨by decide, by decide, ?_⟩
  refine List.Forall₂.cons (CellCorr.num 1 "1" (by decide) (by decide)) ?_
  refine List.Forall₂.cons (CellCorr.str "a" "a" (by decide) (by decide) (by decide)) ?_
  refine List.Forall₂.cons (CellCorr.num 1 "1" (by decide) (by decide)) List.Forall₂.nil

/-- Claim C2 (amended): on the same logical data (cell-wise correspondence
between the frame and the CSV fields, per column), the two summarizers
return identical column names, null counts, null fractions, and min/max;
unique counts also agree — up to the too-many sentinel: exact and equal
when the memory-side count is within the ceiling, the sentinel otherwise
— for every column in which no numeric-parsable field occurs after a
non-parsable one; for mixed columns the unique counts can differ (see the
counterexample). -/
theorem C2_amended (parse : String → Option ℚ) (df : DataFrame)
    (rows : List (List String)) (y : String) (ceil : ℕ)
    (mout : MemResult) (bout : BigResult)
    (hnd : (df.map (fun p => p.1)).Nodup)
    (hmem : summarize_training_data parse df y = Except.ok mout)
    (hbig : summarize_big_training_data parse (df.map (fun p => p.1)) rows y ceil =
      Except.ok bout)
    (hcorr : ∀ k (hk : k < df.length), List.Forall₂ (CellCorr parse)
      (df.get ⟨k, hk⟩).2
      (colStream (df.map (fun p => p.1)) rows (df.get ⟨k, hk⟩).1)) :
    bout.n_rows = mout.n_rows ∧
      mout.summary.length = df.length ∧ bout.summary.length = df.length ∧
      ∀ k (hkm : k < mout.summary.length) (hkb : k < bout.summary.length),
        (mout.summary.get ⟨k, hkm⟩).attr = (bout.summary.get ⟨k, hkb⟩).attr ∧
        (bout.summary.get ⟨k, hkb⟩).n_null = (mout.summary.get ⟨k, hkm⟩).n_null ∧
        (bout.summary.get ⟨k, hkb⟩).perc_null = (mout.summary.get ⟨k, hkm⟩).perc_null ∧
        (bout.summary.get ⟨k, hkb⟩).min = (mout.summary.get ⟨k, hkm⟩).min ∧
        (bout.summary.get ⟨k, hkb⟩).max = (mout.summary.get ⟨k, hkm⟩).max ∧
        (NoMixed parse (colStream (df.map (fun p => p.1)) rows
            ((mout.summary.get ⟨k, hkm⟩).attr)) = true →
          (bout.summary.get ⟨k, hkb⟩).n_uniq =
            (if (mout.summary.get ⟨k, hkm⟩).n_uniq ≤ ceil
              then UniqCount.exact (mout.summary.get ⟨k, hkm⟩).n_uniq
              else UniqCount.toomany ceil)) := by
  unfold summarize_training_data at hmem
  cases hy : df.lookup y with
  | none =>
      rw [hy] at hmem
      exact Except.noConfusion hmem
  | some ycol =>
      rw [hy] at hmem
      cases hmem
      obtain ⟨st, hrun, hnz, hbout⟩ :=
        summarize_big_ok parse (df.map (fun p => p.1)) rows y ceil bout hbig
      subst hbout
      have hdfne : df ≠ [] := by
        intro he
        subst he
        simp at hy
      have hdfpos : 0 < df.length := by
        cases df with
        | nil => exact absurd rfl hdfne
        | cons p rest => simp
      have hrowiq : nRows df = rows.length := by
        have hf := (hcorr 0 hdfpos).length_eq
        rw [colStream, List.length_map] at hf
        cases df with
        | nil => exact absurd rfl hdfne
        | cons p rest => simpa [nRows] using hf
      have hnst : st.n_rows = rows.length := by
        unfold runRows at hrun
        obtain ⟨h1, _, _, _⟩ :=
          runRowsFrom_props parse (df.map (fun p => p.1)) y ceil rows initBigState st hrun
        rw [h1]
        simp [initBigState]
      refine ⟨by simpa [hnst] using hrowiq.symm, by simp, by simp, ?_⟩
      intro k hkm hkb
      have hk : k < df.length := by simpa using hkm
      have hkc : k < (df.map (fun p => p.1)).length := by simpa using hk
      have hmget := get_map_general
        (fun (p : String × List CellVal) =>
          ({ attr := p.1, max := (getMinMax parse p.2).2, min := (getMinMax parse p.2).1,
             n_null := (p.2.filter (fun v => isNullOrBlank v)).length,
             n_uniq := getUniq p.2,
             perc_null := ((p.2.filter (fun v => isNullOrBlank v)).length : ℚ) /
               (nRows df : ℚ) } : MemColSummary)) df k hkm hk
      have hbget : ((df.map (fun p => p.1)).map (fun c => bigColSummary ceil st c)).get
          ⟨k, hkb⟩ = bigColSummary ceil st ((df.get ⟨k, hk⟩).1) := by
        rw [get_map_general (fun c => bigColSummary ceil st c) _ k hkb hkc]
        rw [get_map_general (fun (p : String × List CellVal) => p.1) df k hkc hk]
      have hcmem : (df.get ⟨k, hk⟩).1 ∈ df.map (fun p => p.1) := by
        rw [List.mem_map]
        exact ⟨df.get ⟨k, hk⟩, df.get_mem k hk, rfl⟩
      have hproj : projCol st ((df.get ⟨k, hk⟩).1) =
          colRun parse ceil
            (colStream (df.map (fun p => p.1)) rows ((df.get ⟨k, hk⟩).1)) := by
        unfold runRows at hrun
        have hpp := runRowsFrom_proj parse (df.map (fun p => p.1)) y ceil hnd rows
          initBigState st hrun ((df.get ⟨k, hk⟩).1) hcmem
        rw [projCol_initBigState] at hpp
        exact hpp
      have hcorrk := hcorr k hk
      have hnulls : st.null_counts ((df.get ⟨k, hk⟩).1) =
          ((df.get ⟨k, hk⟩).2.filter (fun v => isNullOrBlank v)).length := by
        have h1 : st.null_counts ((df.get ⟨k, hk⟩).1) =
            (projCol st ((df.get ⟨k, hk⟩).1)).nulls := rfl
        rw [h1, hproj]
        unfold colRun
        rw [colRunFrom_nulls]
        have h2 : initColAcc.nulls = 0 := rfl
        rw [h2, corr_null_count parse _ _ hcorrk]
        omega
      have hmm : getMinMax parse ((df.get ⟨k, hk⟩).2) =
          (if st.col_numeric ((df.get ⟨k, hk⟩).1) = true
            then (st.col_min ((df.get ⟨k, hk⟩).1), st.col_max ((df.get ⟨k, hk⟩).1))
            else (none, none)) := by
        have h0 : getMinMax parse ((df.get ⟨k, hk⟩).2) =
            getMinMaxAux parse initColAcc.mn initColAcc.mx ((df.get ⟨k, hk⟩).2) := rfl
        rw [h0, corr_minmax parse ceil _ _ hcorrk initColAcc rfl]
        have h1 : st.col_numeric ((df.get ⟨k, hk⟩).1) =
            (projCol st ((df.get ⟨k, hk⟩).1)).numeric := rfl
        have h2 : st.col_min ((df.get ⟨k, hk⟩).1) =
            (projCol st ((df.get ⟨k, hk⟩).1)).mn := rfl
        have h3 : st.col_max ((df.get ⟨k, hk⟩).1) =
            (projCol st ((df.get ⟨k, hk⟩).1)).mx := rfl
        rw [h1, h2, h3, hproj]
        rfl
      rw [hmget, hbget]
      refine ⟨rfl, ?_, ?_, ?_, ?_, ?_⟩
      · show st.null_counts ((df.get ⟨k, hk⟩).1) =
          ((df.get ⟨k, hk⟩).2.filter (fun v => isNullOrBlank v)).length
        exact hnulls
      · show (st.null_counts ((df.get ⟨k, hk⟩).1) : ℚ) / (st.n_rows : ℚ) =
          (((df.get ⟨k, hk⟩).2.filter (fun v => isNullOrBlank v)).length : ℚ) /
            (nRows df : ℚ)
        rw [hnulls, hnst, hrowiq]
      · show (if st.col_numeric ((df.get ⟨k, hk⟩).1)
            then st.col_min ((df.get ⟨k, hk⟩).1) else none) =
          (getMinMax parse ((df.get ⟨k, hk⟩).2)).1
        rw [hmm]
        by_cases hnum : st.col_numeric ((df.get ⟨k, hk⟩).1) = true <;>
          simp only [List.get_eq_getElem] at hnum <;> simp [hnum]
      · show (if st.col_numeric ((df.get ⟨k, hk⟩).1)
            then st.col_max ((df.get ⟨k, hk⟩).1) else none) =
          (getMinMax parse ((df.get ⟨k, hk⟩).2)).2
        rw [hmm]
        by_cases hnum : st.col_numeric ((df.get ⟨k, hk⟩).1) = true <;>
          simp only [List.get_eq_getElem] at hnum <;> simp [hnum]
      · intro hnm
        show (bigColSummary ceil st ((df.get ⟨k, hk⟩).1)).n_uniq =
          (if getUniq ((df.get ⟨k, hk⟩).2) ≤ ceil
            then UniqCount.exact (getUniq ((df.get ⟨k, hk⟩).2))
            else UniqCount.toomany ceil)
        have hchar := stream_n_uniq_char parse (df.map (fun p => p.1)) y ceil rows st
          hnd hrun ((df.get ⟨k, hk⟩).1) hcmem
        have huniq := corr_uniq parse ((df.get ⟨k, hk⟩).2)
          (colStream (df.map (fun p => p.1)) rows ((df.get ⟨k, hk⟩).1)) hcorrk hnm
        rw [hchar, huniq.2]

theorem C2_witness :
    c2Bout.n_rows = c2Mout.n_rows ∧
      c2Mout.summary.length = c2Df.length ∧
      c2Bout.summary.length = c2Df.length ∧
      ∀ k (hkm : k < c2Mout.summary.length) (hkb : k < c2Bout.summary.length),
        (c2Mout.summary.get ⟨k, hkm⟩).attr = (c2Bout.summary.get ⟨k, hkb⟩).attr ∧
        (c2Bout.summary.get ⟨k, hkb⟩).n_null = (c2Mout.summary.get ⟨k, hkm⟩).n_null ∧
        (c2Bout.summary.get ⟨k, hkb⟩).perc_null =
          (c2Mout.summary.get ⟨k, hkm⟩).perc_null ∧
        (c2Bout.summary.get ⟨k, hkb⟩).min = (c2Mout.summary.get ⟨k, hkm⟩).min ∧
        (c2Bout.summary.get ⟨k, hkb⟩).max = (c2Mout.summary.get ⟨k, hkm⟩).max ∧
        (NoMixed c2Parse (colStream (c2Df.map (fun p => p.1)) [["1"]]
            ((c2Mout.summary.get ⟨k, hkm⟩).attr)) = true →
          (c2Bout.summary.get ⟨k, hkb⟩).n_uniq =
            (if (c2Mout.summary.get ⟨k, hkm⟩).n_uniq ≤ 1000
              then UniqCount.exact (c2Mout.summary.get ⟨k, hkm⟩).n_uniq
              else UniqCount.toomany 1000)) :=
  C2_amended c2Parse c2Df [["1"]] "x" 1000 c2Mout c2Bout
    (by decide) (by rfl) (by rfl)
    (by
      intro k hk
      have hk1 : k < 1 := by simpa [c2Df] using hk
      interval_cases k
      exact List.Forall₂.cons (CellCorr.num 1 "1" (by decide) (by decide))
        List.Forall₂.nil)
